import Mathlib

/-!
Verification of the `trie` package of golangDemo/cidranger.

This file gives a shallow embedding of `src/ranger/trie/trie.go`, the
path-compressed binary trie for CIDR ranges, and proves or refutes the
specification claims about it.

Modelling choices:

* Go heap pointers are modelled by an arena: the trie state is a list of
  nodes, and `parent` / child slots hold arena indices.  Allocation appends
  to the list.  This keeps the `parent` back-references of the source
  observable (several claims are about them).
* Go `uint` arithmetic (`31 - p.numBitsSkipped`, `lcb - 1`, `32 - lcb`)
  wraps at 2^64; this is modelled explicitly with `usub`.
* Recursive methods take fuel; running out of fuel models nontermination
  (which Go would exhibit as unbounded recursion) as the distinguished
  `Err.outOfFuel`, never as a Go error value.
* The repository's `net` support package (`rnet.Network`,
  `rnet.NetworkNumber`) is not under `src/`; those few operations are
  modelled from the spec (§3, §6) and are marked `Modelled from the spec:`
  in their doc comments.
* A nil-pointer dereference (`p.parent` at the root in `remove`) is a Go
  panic; it is modelled as the distinguished `Err.nilDereference`.
-/

namespace CidrTrie

/-- 2^64, the modulus of Go's `uint` arithmetic on the target platform. -/
def U64 : Nat := 18446744073709551616

/-- Go unsigned subtraction `a - b` on `uint`, with wraparound at 2^64. -/
def usub (a b : Nat) : Nat := (a + U64 - b % U64) % U64

/-- Bit `i` of `a` (0 = least significant), as the natural number 0 or 1. -/
def bitVal (a i : Nat) : Nat := a / 2 ^ i % 2

/-- The error values that can surface from the trie operations.
`invalidNetworkNumberInput` is `ranger.ErrInvalidNetworkNumberInput`;
`invalidBitPosition` is `rnet.ErrInvalidBitPosition`;
`noGreatestCommonBit` is `rnet.ErrNoGreatestCommonBit`;
`nilDereference` models a Go nil-pointer panic;
`outOfFuel` models nontermination of the embedding's fuelled recursion. -/
inductive Err where
  | invalidNetworkNumberInput
  | invalidBitPosition
  | noGreatestCommonBit
  | nilDereference
  | outOfFuel
deriving DecidableEq, Repr

/-- Modelled from the spec: the `rnet.Network` value of the repository's
`net` package (not under `src/`) — "fixed-width integer (32 bits for IPv4)"
paired with "a prefix length to form a CIDR network" (§3). -/
structure Network where
  number : Nat
  prefixLen : Nat
deriving DecidableEq, Repr

/-- Keep the top `len` of 32 bits of the address `a`, zeroing the rest. -/
def maskAddr (a len : Nat) : Nat := a / 2 ^ (32 - len) * 2 ^ (32 - len)

/-- Modelled from the spec: `rnet.Network.Masked` — "Mask an address to a
given bit length, returning a new Network" (§6). -/
def Network.Masked (n : Network) (mask : Nat) : Network :=
  ⟨maskAddr n.number mask, mask⟩

/-- Modelled from the spec: `rnet.NewNetwork` — "Construct a Network from a
raw address and prefix length, masking host bits to zero" (§6). -/
def NewNetwork (addr ones : Nat) : Network :=
  ⟨maskAddr addr ones, ones⟩

/-- Modelled from the spec: `rnet.Network.Contains` — "Containment test:
does a Network's prefix contain a given address" (§6): the address agrees
with the (stored-masked) network value on the network's prefix. -/
def Network.ContainsNum (n : Network) (a : Nat) : Bool :=
  maskAddr a n.prefixLen == n.number

/-- Modelled from the spec: `rnet.NetworkNumber.Bit` — "Extract bit i of an
address (0-indexed from least significant)" (§6); positions outside the
32-bit width fail with `InvalidBitPosition` (§7). -/
def numBit (a : Nat) (pos : Nat) : Except Err Nat :=
  if pos ≥ 32 then .error .invalidBitPosition else .ok (bitVal a pos)

/-- Position of the highest-order bit below position `k` at which `a` and
`b` differ, if any (helper for the divergence computation). -/
def divergeAux (a b : Nat) : Nat → Option Nat
  | 0 => none
  | k + 1 => if bitVal a k ≠ bitVal b k then some k else divergeAux a b k

/-- Modelled from the spec: `rnet.NetworkNumber.LeastCommonBitPosition` on
raw 32-bit address values — from "the divergence bit position between two
addresses (the highest-order bit at which they first differ)" (§6, §8
glossary).  The least position of the run of common leading bits is one
above the divergence position; divergence at the very first bit means there
is no common leading bit, which is the `ErrNoGreatestCommonBit` failure;
addresses that never differ have all bits in common, yielding 0. -/
def numberLcbPos (a b : Nat) : Except Err Nat :=
  match divergeAux a b 32 with
  | none => .ok 0
  | some d => if d = 31 then .error .noGreatestCommonBit else .ok (d + 1)

/-- Modelled from the spec: `rnet.Network.LeastCommonBitPosition` (the form
`trie.go` line 187 calls on `rnet.Network` values).  The divergence of the
underlying addresses (§6) is floored at the first bit position below the
shorter of the two prefixes: bits beyond a network's prefix length are not
part of the network, so two networks cannot share leading bits beyond the
shorter prefix.  This floor is what makes a network inserted inside an
existing network descend into it rather than split above it, as the spec's
§4.2 step 4 and the §8 scenarios require. -/
def Network.LeastCommonBitPosition (n n1 : Network) : Except Err Nat :=
  match numberLcbPos n.number n1.number with
  | .error e => .error e
  | .ok lcb => .ok (max (32 - min n.prefixLen n1.prefixLen) lcb)

/-- A node of the prefix trie (`PrefixTrie` in trie.go).  `parent` and the
two child slots hold arena indices; `none` is Go's nil pointer. -/
structure Node where
  parent : Option Nat
  child0 : Option Nat
  child1 : Option Nat
  numBitsSkipped : Nat
  numBitsHandled : Nat
  network : Network
  hasEntry : Bool
deriving DecidableEq, Repr

/-- The node `children[b]` slot selected by a bit value (0 or 1). -/
def getChild (n : Node) (b : Nat) : Option Nat :=
  if b = 0 then n.child0 else n.child1

/-- Write the node child slot selected by a bit value (0 or 1). -/
def setChildSlot (n : Node) (b : Nat) (v : Option Nat) : Node :=
  if b = 0 then { n with child0 := v } else { n with child1 := v }

/-- The node used when an arena index is out of range.  Indices stored in a
trie state built through the public operations are always in range. -/
def defaultNode : Node :=
  { parent := none, child0 := none, child1 := none, numBitsSkipped := 0,
    numBitsHandled := 1, network := ⟨0, 0⟩, hasEntry := false }

/-- The trie state: the arena of nodes.  The root is at index 0. -/
structure PrefixTrie where
  nodes : List Node
deriving DecidableEq, Repr

/-- Read the node at arena index `i`. -/
def getNode (t : PrefixTrie) (i : Nat) : Node :=
  t.nodes.getD i defaultNode

/-- Overwrite the node at arena index `i` (in-place pointer mutation). -/
def setNode (t : PrefixTrie) (i : Nat) (n : Node) : PrefixTrie :=
  ⟨t.nodes.set i n⟩

/-- Allocate a fresh node, returning the new state and the node's index. -/
def allocNode (t : PrefixTrie) (n : Node) : PrefixTrie × Nat :=
  (⟨t.nodes ++ [n]⟩, t.nodes.length)

/-- `NewPrefixTree` (trie.go lines 51–60): a root node for `0.0.0.0/0`,
`numBitsSkipped = 0`, `numBitsHandled = 1`, no children, no entry. -/
def NewPrefixTree : PrefixTrie :=
  ⟨[{ parent := none, child0 := none, child1 := none, numBitsSkipped := 0,
      numBitsHandled := 1, network := NewNetwork 0 0, hasEntry := false }]⟩

/-- `targetBitPosition` (trie.go lines 260–262): `31 - p.numBitsSkipped`
in Go `uint` arithmetic, so it wraps around for `numBitsSkipped = 32`. -/
def targetBitPosition (skip : Nat) : Nat := usub 31 skip

/-- `targetBitFromIP` (trie.go lines 264–266). -/
def targetBitFromIP (p : Node) (a : Nat) : Except Err Nat :=
  numBit a (targetBitPosition p.numBitsSkipped)

/-- `newPathPrefixTrie` (trie.go lines 62–67): a fresh path node whose
network is the given network masked to `numBitsSkipped` bits. -/
def newPathNode (network : Network) (numBitsSkipped : Nat) : Node :=
  { parent := none, child0 := none, child1 := none,
    numBitsSkipped := numBitsSkipped, numBitsHandled := 1,
    network := network.Masked numBitsSkipped, hasEntry := false }

/-- `newEntryTrie` (trie.go lines 69–77): a path node at the network's own
prefix length, with the entry flag set. -/
def newEntryNode (network : Network) : Node :=
  { newPathNode network network.prefixLen with hasEntry := true }

/-- `childrenCount` (trie.go lines 250–258). -/
def childrenCount (p : Node) : Nat :=
  (if p.child0.isSome then 1 else 0) + (if p.child1.isSome then 1 else 0)

/-- The first non-nil child in slot order (the `skipChild` loop of
`remove`, trie.go lines 229–234). -/
def firstChild (p : Node) : Option Nat :=
  match p.child0 with
  | some c => some c
  | none => p.child1

/-- `contains` (trie.go lines 125–141), fuelled. -/
def containsAux : Nat → PrefixTrie → Nat → Nat → Except Err Bool
  | 0, _, _, _ => .error .outOfFuel
  | fuel + 1, t, i, number =>
    let p := getNode t i
    if ¬ p.network.ContainsNum number then .ok false
    else if p.hasEntry then .ok true
    else
      match targetBitFromIP p number with
      | .error e => .error e
      | .ok bit =>
        match getChild p bit with
        | none => .ok false
        | some child => containsAux fuel t child number

/-- `containingNetworks` (trie.go lines 143–166), fuelled. -/
def containingAux : Nat → PrefixTrie → Nat → Nat → Except Err (List Network)
  | 0, _, _, _ => .error .outOfFuel
  | fuel + 1, t, i, number =>
    let p := getNode t i
    if ¬ p.network.ContainsNum number then .ok []
    else
      let results := if p.hasEntry then [p.network] else []
      match targetBitFromIP p number with
      | .error e => .error e
      | .ok bit =>
        match getChild p bit with
        | none => .ok results
        | some child =>
          match containingAux fuel t child number with
          | .error e => .error e
          | .ok ranges =>
            if ranges.length > 0 then .ok (results ++ ranges) else .ok results

/-- `insertPrefix` (trie.go lines 204–216), fuelled.  Mirrors the source:
if the slot is occupied, the occupant is pushed down into the new node
first (the error of that recursive call is discarded, as in the source),
then the slot and the new node's parent pointer are overwritten.  The
returned state reflects all mutations performed before an error, since the
source mutates in place. -/
def insertPrefixAux : Nat → PrefixTrie → Nat → Nat → Nat → PrefixTrie × Option Err
  | 0, t, _, _, _ => (t, some .outOfFuel)
  | fuel + 1, t, pIdx, bits, newIdx =>
    match getChild (getNode t pIdx) bits with
    | some childIdx =>
      match targetBitFromIP (getNode t newIdx) (getNode t childIdx).network.number with
      | .error e => (t, some e)
      | .ok childBit =>
        let t1 := (insertPrefixAux fuel t newIdx childBit childIdx).1
        let t2 := setNode t1 pIdx (setChildSlot (getNode t1 pIdx) bits (some newIdx))
        let t3 := setNode t2 newIdx { getNode t2 newIdx with parent := some pIdx }
        (t3, none)
    | none =>
      let t2 := setNode t pIdx (setChildSlot (getNode t pIdx) bits (some newIdx))
      let t3 := setNode t2 newIdx { getNode t2 newIdx with parent := some pIdx }
      (t3, none)

/-- `insert` (trie.go lines 168–202), fuelled.  Returns the state after all
mutations performed (allocation included) together with the Go error. -/
def insertAux : Nat → PrefixTrie → Nat → Network → PrefixTrie × Option Err
  | 0, t, _, _ => (t, some .outOfFuel)
  | fuel + 1, t, i, network =>
    let p := getNode t i
    if p.network = network then
      (setNode t i { p with hasEntry := true }, none)
    else
      match targetBitFromIP p network.number with
      | .error e => (t, some e)
      | .ok bit =>
        match getChild p bit with
        | none =>
          let alloc := allocNode t (newEntryNode network)
          insertPrefixAux (fuel + 1) alloc.1 i bit alloc.2
        | some childIdx =>
          match network.LeastCommonBitPosition (getNode t childIdx).network with
          | .error e => (t, some e)
          | .ok lcb =>
            if usub lcb 1 > targetBitPosition (getNode t childIdx).numBitsSkipped then
              let alloc := allocNode t (newPathNode network (usub 32 lcb))
              match insertPrefixAux (fuel + 1) alloc.1 i bit alloc.2 with
              | (t2, some e) => (t2, some e)
              | (t2, none) => insertAux fuel t2 alloc.2 network
            else
              insertAux fuel t childIdx network

/-- `remove` (trie.go lines 218–248), fuelled.  At a matching entry node
with at most one child the source reads `p.parent` unconditionally; a root
match therefore dereferences nil, modelled by `Err.nilDereference`. -/
def removeAux : Nat → PrefixTrie → Nat → Network → PrefixTrie × Except Err (Option Network)
  | 0, t, _, _ => (t, .error .outOfFuel)
  | fuel + 1, t, i, network =>
    let p := getNode t i
    if p.hasEntry ∧ p.network = network then
      if childrenCount p > 1 then
        (setNode t i { p with hasEntry := false }, .ok (some network))
      else
        match p.parent with
        | none => (t, .error .nilDereference)
        | some parentIdx =>
          match targetBitFromIP (getNode t parentIdx) network.number with
          | .error e => (t, .error e)
          | .ok parentBits =>
            let t2 := setNode t parentIdx
              (setChildSlot (getNode t parentIdx) parentBits (firstChild p))
            (t2, .ok (some network))
    else
      match targetBitFromIP p network.number with
      | .error e => (t, .error e)
      | .ok bit =>
        match getChild p bit with
        | none => (t, .ok none)
        | some child => removeAux fuel t child network

/-- The fuel supplied to the public operations: enough for any descent that
Go would complete (a non-repeating descent visits at most `nodes.length`
nodes, and a well-formed descent at most 33). -/
def FUEL (t : PrefixTrie) : Nat := t.nodes.length + 34

/-- A caller-supplied IPv4 CIDR block (`net.IPNet`): raw address value plus
prefix length (`Mask.Size`). -/
structure IPNetV4 where
  addr : Nat
  ones : Nat
deriving DecidableEq, Repr

/-- `Insert` (trie.go lines 79–82). -/
def PrefixTrie.Insert (t : PrefixTrie) (n : IPNetV4) : PrefixTrie × Option Err :=
  insertAux (FUEL t) t 0 (NewNetwork n.addr n.ones)

/-- `Remove` (trie.go lines 84–87). -/
def PrefixTrie.Remove (t : PrefixTrie) (n : IPNetV4) :
    PrefixTrie × Except Err (Option Network) :=
  removeAux (FUEL t) t 0 (NewNetwork n.addr n.ones)

/-- Modelled from the spec: `rnet.NewNetworkNumber` — interpret a raw IP
(a byte sequence) "as a value of the configured address width"; inputs of
the wrong length or with out-of-range bytes cannot be so interpreted and
yield nothing (§7 `InvalidAddressInput`). -/
def NewNetworkNumber (ip : List Nat) : Option Nat :=
  if ip.length = 4 ∧ ip.all (· < 256) then
    some (ip.foldl (fun acc b => acc * 256 + b) 0)
  else none

/-- `Contains` (trie.go lines 91–97). -/
def PrefixTrie.Contains (t : PrefixTrie) (ip : List Nat) : Except Err Bool :=
  match NewNetworkNumber ip with
  | none => .error .invalidNetworkNumberInput
  | some number => containsAux (FUEL t) t 0 number

/-- `ContainingNetworks` (trie.go lines 101–107). -/
def PrefixTrie.ContainingNetworks (t : PrefixTrie) (ip : List Nat) :
    Except Err (List Network) :=
  match NewNetworkNumber ip with
  | none => .error .invalidNetworkNumberInput
  | some number => containingAux (FUEL t) t 0 number

/-! ### Concrete states used by the scenario claims

Address values: 192.168.0.0 = 3232235520, 192.168.0.1 = 3232235521,
192.168.1.0 = 3232235776, 192.168.1.5 = 3232235781, 10.0.0.1 = 167772161,
1.2.3.4 = 16909060, 1.2.3.5 = 16909061. -/

/-- The CIDR block 192.168.0.0/24. -/
def ipNet24 : IPNetV4 := ⟨3232235520, 24⟩

/-- The CIDR block 192.168.0.0/25. -/
def ipNet25 : IPNetV4 := ⟨3232235520, 25⟩

/-- The CIDR block 192.168.1.0/24. -/
def ipNet168_1 : IPNetV4 := ⟨3232235776, 24⟩

/-- The network value of 192.168.0.0/24. -/
def net24 : Network := NewNetwork 3232235520 24

/-- The network value of 192.168.0.0/25. -/
def net25 : Network := NewNetwork 3232235520 25

/-- Scenario A, first insertion. -/
def stepA1 : PrefixTrie × Option Err := NewPrefixTree.Insert ipNet24

/-- Scenario A, second insertion. -/
def stepA2 : PrefixTrie × Option Err := stepA1.1.Insert ipNet25

/-- Scenario A, third insertion. -/
def stepA3 : PrefixTrie × Option Err := stepA2.1.Insert ipNet168_1

/-- The trie of scenario A: 192.168.0.0/24, 192.168.0.0/25, 192.168.1.0/24
inserted into an empty trie. -/
def scenarioA : PrefixTrie := stepA3.1

/-- Scenario B: remove 192.168.0.0/25 from the scenario A trie. -/
def stepB : PrefixTrie × Except Err (Option Network) := scenarioA.Remove ipNet25

/-- Insert 192.168.0.0/24 and 192.168.0.0/25, then remove 192.168.0.0/24:
the /24 node is spliced out and the /25 node is promoted into the root's
child slot, but the /25 node's parent reference is left pointing at the
detached /24 node. -/
def dropStep1 : PrefixTrie × Except Err (Option Network) := stepA2.1.Remove ipNet24

/-- Continue from `dropStep1`: remove 192.168.0.0/25 as well.  The splice
is performed through the stale parent reference, mutating the detached /24
node instead of the root, so the /25 node silently stays in the trie. -/
def dropStep2 : PrefixTrie × Except Err (Option Network) := dropStep1.1.Remove ipNet25

/-- The trie after inserting /24 and /25 and then removing both. -/
def ghostState : PrefixTrie := dropStep2.1

/-- Insert the all-addresses network 0.0.0.0/0 into an empty trie: it is
recorded on the root node itself. -/
def rootEntry : PrefixTrie × Option Err := NewPrefixTree.Insert ⟨0, 0⟩

/-- Insert the single host network 1.2.3.4/32 into an empty trie. -/
def one32 : PrefixTrie × Option Err := NewPrefixTree.Insert ⟨16909060, 32⟩

/-- Remove the absent network 1.2.3.5/32 from the 1.2.3.4/32 trie: the
descent reaches the /32 node, whose target bit position underflows. -/
def rm32 : PrefixTrie × Except Err (Option Network) := one32.1.Remove ⟨16909061, 32⟩


/-- Does some node reachable from arena index `i` within `fuel` steps carry
the entry flag for exactly `network`?  This is membership of `network` in
the trie's inserted set (when started at the root with enough fuel);
exhausted fuel conservatively answers `true`. -/
def hasEntryBelow : Nat → PrefixTrie → Nat → Network → Bool
  | 0, _, _, _ => true
  | fuel + 1, t, i, network =>
    let p := getNode t i
    (p.hasEntry && p.network == network)
    || (match p.child0 with
        | some c => hasEntryBelow fuel t c network
        | none => false)
    || (match p.child1 with
        | some c => hasEntryBelow fuel t c network
        | none => false)

/-- The state produced by the path-compression split of `insert` (trie.go
lines 187–199) before the recursive `child.insert(network)` call: a single
fresh branch node (at the next arena index) whose `numBitsSkipped` is
`32 - lcb`, holding the old child `childIdx` in the slot `pb` recomputed
under it, installed in slot `bit` of node `i` in the old child's place.
The mutation order mirrors `insertPrefix`. -/
def splitState (t : PrefixTrie) (i bit childIdx : Nat) (network : Network)
    (lcb pb : Nat) : PrefixTrie :=
  let newIdx := t.nodes.length
  let t1 : PrefixTrie := ⟨t.nodes ++ [newPathNode network (usub 32 lcb)]⟩
  let t2 := setNode t1 newIdx (setChildSlot (getNode t1 newIdx) pb (some childIdx))
  let t3 := setNode t2 childIdx { getNode t2 childIdx with parent := some newIdx }
  let t4 := setNode t3 i (setChildSlot (getNode t3 i) bit (some newIdx))
  setNode t4 newIdx { getNode t4 newIdx with parent := some i }


/-! ### The structural well-formedness invariant

`WF` is the invariant that states reachable through the public operations
satisfy; several general theorems assume it.  It constrains only the
structural fields (`network`, `numBitsSkipped`, links); it deliberately does
not say that `parent` references are up to date, which the code does not
maintain (see the C9 analysis). -/

/-- Conditions on an occupied child slot `b` of a node `p`: the child index
is in range, the slot is selected by an in-range bit, the child is strictly
deeper, its address extends the node's prefix, and its bit at the node's
target position is the slot index. -/
def childOK (t : PrefixTrie) (p : Node) (b : Nat) (oc : Option Nat) : Prop :=
  ∀ c ∈ oc, c < t.nodes.length ∧ p.numBitsSkipped ≤ 31 ∧
    p.numBitsSkipped < (getNode t c).numBitsSkipped ∧
    maskAddr (getNode t c).network.number p.numBitsSkipped = p.network.number ∧
    bitVal (getNode t c).network.number (31 - p.numBitsSkipped) = b

/-- Conditions on a parent reference of a node `p`: in range, strictly
shallower than `p`, of target position in range, and `p`'s address extends
its prefix.  This also holds for the stale parent references that `remove`
leaves behind, because a node's structural fields never change. -/
def parentOK (t : PrefixTrie) (p : Node) : Prop :=
  ∀ q ∈ p.parent, q < t.nodes.length ∧ (getNode t q).numBitsSkipped ≤ 31 ∧
    (getNode t q).numBitsSkipped < p.numBitsSkipped ∧
    maskAddr p.network.number (getNode t q).numBitsSkipped = (getNode t q).network.number

/-- Per-node structural conditions: the address is a masked 32-bit value,
the stored prefix length equals `numBitsSkipped` and is at most the address
width, and all links are well-formed. -/
def nodeOK (t : PrefixTrie) (p : Node) : Prop :=
  p.network.number < 2 ^ 32 ∧
  maskAddr p.network.number p.network.prefixLen = p.network.number ∧
  p.network.prefixLen = p.numBitsSkipped ∧
  p.numBitsSkipped ≤ 32 ∧
  childOK t p 0 p.child0 ∧ childOK t p 1 p.child1 ∧ parentOK t p

/-- The trie invariant: a root exists at index 0 with `numBitsSkipped = 0`,
and every node of the arena satisfies `nodeOK`. -/
def WF (t : PrefixTrie) : Prop :=
  0 < t.nodes.length ∧ (getNode t 0).numBitsSkipped = 0 ∧
  ∀ i, i < t.nodes.length → nodeOK t (getNode t i)

instance decChildOK (t : PrefixTrie) (p : Node) (b : Nat) (oc : Option Nat) :
    Decidable (childOK t p b oc) := by
  unfold childOK; exact inferInstance

instance decParentOK (t : PrefixTrie) (p : Node) : Decidable (parentOK t p) := by
  unfold parentOK; exact inferInstance

instance decNodeOK (t : PrefixTrie) (p : Node) : Decidable (nodeOK t p) := by
  unfold nodeOK; exact inferInstance

instance decWF (t : PrefixTrie) : Decidable (WF t) := by
  unfold WF
  have : Decidable (∀ i, i < t.nodes.length → nodeOK t (getNode t i)) :=
    Nat.decidableBallLT _ _
  exact inferInstance

/-- The states reachable from the empty trie through the public mutating
operations applied to valid IPv4 CIDR inputs. -/
inductive Reachable : PrefixTrie → Prop where
  | base : Reachable NewPrefixTree
  | insert (t : PrefixTrie) (n : IPNetV4) : Reachable t → n.addr < 2 ^ 32 →
      n.ones ≤ 32 → Reachable (t.Insert n).1
  | remove (t : PrefixTrie) (n : IPNetV4) : Reachable t → n.addr < 2 ^ 32 →
      n.ones ≤ 32 → Reachable (t.Remove n).1


/-- The state produced by the attach step of `insert` (trie.go lines
178–184): a fresh entry node for `network` appended and linked into slot
`bit` of node `i`.  The mutation order mirrors `insertPrefix`. -/
def attachState (t : PrefixTrie) (i bit : Nat) (network : Network) : PrefixTrie :=
  let newIdx := t.nodes.length
  let t1 : PrefixTrie := ⟨t.nodes ++ [newEntryNode network]⟩
  let t2 := setNode t1 i (setChildSlot (getNode t1 i) bit (some newIdx))
  setNode t2 newIdx { getNode t2 newIdx with parent := some i }

/-- The postcondition bundle of one `insert` call starting at node `i`:
the invariant is preserved, the arena only grows, existing nodes keep their
structural fields, an error implies the state is returned untouched and is
a real error (not fuel exhaustion), nodes strictly shallower than the start
node are untouched entirely, and on success re-running the same insertion
from `i` (with any sufficient fuel) returns the state unchanged. -/
def InsertPost (t : PrefixTrie) (i : Nat) (n : Network)
    (r : PrefixTrie × Option Err) : Prop :=
  WF r.1 ∧
  t.nodes.length ≤ r.1.nodes.length ∧
  (∀ j, j < t.nodes.length →
    (getNode r.1 j).network = (getNode t j).network ∧
    (getNode r.1 j).numBitsSkipped = (getNode t j).numBitsSkipped) ∧
  (∀ e, r.2 = some e → r.1 = t ∧ e ≠ Err.outOfFuel) ∧
  (∀ j, j < t.nodes.length →
    (getNode t j).numBitsSkipped < (getNode t i).numBitsSkipped →
    getNode r.1 j = getNode t j) ∧
  (r.2 = none → ∀ fuel2, 33 - (getNode t i).numBitsSkipped ≤ fuel2 →
    insertAux fuel2 r.1 i n = (r.1, none))

/-- Validity of a network value as a masked 32-bit IPv4 CIDR (what
`NewNetwork` produces from a valid `net.IPNet`). -/
def ValidNet (n : Network) : Prop :=
  n.prefixLen ≤ 32 ∧ n.number < 2 ^ 32 ∧ maskAddr n.number n.prefixLen = n.number

/-- The per-frame precondition of the `insert` descent: either the frame
node is a full-length node (where a non-equal insertion fails on the bit
position before reading anything else), or the inserted network extends the
frame node's prefix and is at least as long. -/
def FramePre (t : PrefixTrie) (i : Nat) (n : Network) : Prop :=
  (getNode t i).numBitsSkipped = 32 ∨
  (maskAddr n.number (getNode t i).numBitsSkipped = (getNode t i).network.number ∧
   (getNode t i).numBitsSkipped ≤ n.prefixLen)

end CidrTrie

deriving instance DecidableEq for Except

namespace CidrTrie

/-! ### Theorems -/

/-! Arena access lemmas. -/

theorem getNode_setNode_same (t : PrefixTrie) (i : Nat) (n : Node)
    (h : i < t.nodes.length) : getNode (setNode t i n) i = n := by
  simp [getNode, setNode, List.getD_eq_getElem, List.length_set, h, List.getElem_set]

theorem getNode_setNode_ne (t : PrefixTrie) (i j : Nat) (n : Node) (h : i ≠ j) :
    getNode (setNode t i n) j = getNode t j := by
  by_cases hj : j < t.nodes.length
  · rw [getNode, setNode, List.getD_eq_getElem _ _ (by simpa using hj),
      getNode, List.getD_eq_getElem _ _ hj]
    simp [List.getElem_set, h]
  · rw [getNode, setNode, List.getD_eq_default _ _ (by simpa using Nat.le_of_not_lt hj),
      getNode, List.getD_eq_default _ _ (Nat.le_of_not_lt hj)]

theorem getNode_append_lt (t : PrefixTrie) (l : List Node) (i : Nat)
    (h : i < t.nodes.length) : getNode ⟨t.nodes ++ l⟩ i = getNode t i := by
  rw [getNode, getNode, List.getD_append _ _ _ _ h]

theorem getNode_append_self (t : PrefixTrie) (n : Node) :
    getNode ⟨t.nodes ++ [n]⟩ t.nodes.length = n := by
  rw [getNode, List.getD_append_right _ _ _ _ (Nat.le_refl _)]
  simp

theorem setNode_length (t : PrefixTrie) (i : Nat) (n : Node) :
    (setNode t i n).nodes.length = t.nodes.length := by
  simp [setNode]

theorem getChild_newPathNode (network : Network) (skip b : Nat) :
    getChild (newPathNode network skip) b = none := by
  simp [getChild, newPathNode]

/-- C3: starting from an empty trie, after inserting 192.168.0.0/24,
192.168.0.0/25 and 192.168.1.0/24 (all without error):
`Contains(192.168.0.1)` is true, `ContainingNetworks(192.168.0.1)` is
exactly [192.168.0.0/24, 192.168.0.0/25], `Contains(192.168.1.5)` is true,
`Contains(10.0.0.1)` is false; then `Remove(192.168.0.0/25)` succeeds
returning that network, after which `ContainingNetworks(192.168.0.1)`
is [192.168.0.0/24] only. -/
theorem claim_C3_scenario :
    stepA1.2 = none ∧ stepA2.2 = none ∧ stepA3.2 = none ∧
    scenarioA.Contains [192, 168, 0, 1] = .ok true ∧
    scenarioA.ContainingNetworks [192, 168, 0, 1] = .ok [net24, net25] ∧
    scenarioA.Contains [192, 168, 1, 5] = .ok true ∧
    scenarioA.Contains [10, 0, 0, 1] = .ok false ∧
    stepB.2 = .ok (some net25) ∧
    stepB.1.ContainingNetworks [192, 168, 0, 1] = .ok [net24] := by decide

/-- C1 is false on the code: after inserting 192.168.0.0/24 and
192.168.0.0/25 and then removing both (each `Remove` succeeding and
returning the removed network, so the set S of inserted-and-not-removed
networks is empty), `Contains(192.168.0.1)` still returns true.  The
second splice walks the /25 node's stale parent reference and detaches it
from the already-detached /24 node instead of from the root. -/
theorem claim_C1_counterexample :
    stepA1.2 = none ∧ stepA2.2 = none ∧
    dropStep1.2 = .ok (some net24) ∧
    dropStep2.2 = .ok (some net25) ∧
    ghostState.Contains [192, 168, 0, 1] = .ok true := by decide

/-- C2 is false on the code: in the `ghostState` of the C1 scenario the
set of inserted-and-not-removed networks is empty, yet
`ContainingNetworks(192.168.0.1)` still returns the removed network
192.168.0.0/25, so the result is not exactly the inserted networks
containing the address. -/
theorem claim_C2_counterexample :
    stepA1.2 = none ∧ stepA2.2 = none ∧
    dropStep1.2 = .ok (some net24) ∧
    dropStep2.2 = .ok (some net25) ∧
    ghostState.ContainingNetworks [192, 168, 0, 1] = .ok [net25] := by decide

/-- C9 is false on the code: after inserting 192.168.0.0/24 (node 1) and
192.168.0.0/25 (node 2) and removing 192.168.0.0/24, the root's child
slot 1 holds node 2 (the promoted /25 node), but node 2's parent
back-reference still names the detached node 1, not the root. -/
theorem claim_C9_counterexample :
    stepA1.2 = none ∧ stepA2.2 = none ∧
    dropStep1.2 = .ok (some net24) ∧
    getChild (getNode dropStep1.1 0) 1 = some 2 ∧
    (getNode dropStep1.1 2).parent = some 1 ∧
    (getNode dropStep1.1 2).parent ≠ some 0 := by decide

/-- C10 is false on the code: inserting 0.0.0.0/0 sets the entry flag on
the root itself (which has no children here); removing 0.0.0.0/0 then
takes the at-most-one-child branch of `remove` and dereferences the
root's absent parent — a nil-pointer panic in Go, `Err.nilDereference` in
this embedding — instead of completing and returning the network. -/
theorem claim_C10_counterexample :
    rootEntry.2 = none ∧
    (getNode rootEntry.1 0).hasEntry = true ∧
    childrenCount (getNode rootEntry.1 0) = 0 ∧
    (rootEntry.1.Remove ⟨0, 0⟩).2 = .error .nilDereference := by decide

/-- C4 as stated is false on the code: 1.2.3.5/32 is not in the inserted
set of the trie holding only 1.2.3.4/32, yet `Remove(1.2.3.5/32)` returns
`ErrInvalidBitPosition` rather than the not-found result: the descent
reaches the /32 entry node, whose `targetBitPosition` is `31 - 32`, which
wraps around as Go `uint` and is rejected by the bit extraction.  The
state is nevertheless left unchanged. -/
theorem claim_C4_counterexample :
    one32.2 = none ∧
    rm32.2 = .error .invalidBitPosition ∧
    rm32.1 = one32.1 := by decide


theorem getChild_setChildSlot_self (n : Node) (b : Nat) (v : Option Nat) :
    getChild (setChildSlot n b v) b = v := by
  by_cases hb : b = 0 <;> simp [getChild, setChildSlot, hb]

/-- C7: during `insert`, when the slot chosen by the target bit is occupied
by a child and the divergence position (`lcb - 1`) between the inserted
network and the child's stored network lies strictly above the child's own
target bit position, a single new intermediate branch node is created whose
`numBitsSkipped` (prefix length) is set from the divergence position
(`32 - lcb`); it replaces the child in the parent's slot, and the old child
is re-attached as a child of the new node in the slot `pb` recomputed under
the new node; all other nodes are untouched, and the insertion continues
from the new node. -/
theorem claim_C7 (fuel : Nat) (t : PrefixTrie) (i bit childIdx lcb pb : Nat)
    (network : Network)
    (h_i : i < t.nodes.length) (h_ci : childIdx < t.nodes.length) (h_ic : childIdx ≠ i)
    (h_ne : ¬ (getNode t i).network = network)
    (h_bit : targetBitFromIP (getNode t i) network.number = .ok bit)
    (h_child : getChild (getNode t i) bit = some childIdx)
    (h_lcb : network.LeastCommonBitPosition (getNode t childIdx).network = .ok lcb)
    (h_div : usub lcb 1 > targetBitPosition (getNode t childIdx).numBitsSkipped)
    (h_pb : targetBitFromIP (newPathNode network (usub 32 lcb))
        (getNode t childIdx).network.number = .ok pb) :
    insertAux (fuel + 2) t i network =
      insertAux (fuel + 1) (splitState t i bit childIdx network lcb pb)
        t.nodes.length network ∧
    (splitState t i bit childIdx network lcb pb).nodes.length = t.nodes.length + 1 ∧
    getNode (splitState t i bit childIdx network lcb pb) t.nodes.length =
      { setChildSlot (newPathNode network (usub 32 lcb)) pb (some childIdx) with
          parent := some i } ∧
    getChild (getNode (splitState t i bit childIdx network lcb pb) i) bit =
      some t.nodes.length ∧
    getNode (splitState t i bit childIdx network lcb pb) childIdx =
      { getNode t childIdx with parent := some t.nodes.length } ∧
    (∀ j, j < t.nodes.length → j ≠ i → j ≠ childIdx →
      getNode (splitState t i bit childIdx network lcb pb) j = getNode t j) := by
  have hP : getChild (newPathNode network (usub 32 lcb)) pb = none :=
    getChild_newPathNode network (usub 32 lcb) pb
  have g1 : getNode (⟨t.nodes ++ [newPathNode network (usub 32 lcb)]⟩ : PrefixTrie) i
      = getNode t i := getNode_append_lt t _ i h_i
  have g2 : getNode (⟨t.nodes ++ [newPathNode network (usub 32 lcb)]⟩ : PrefixTrie)
      t.nodes.length = newPathNode network (usub 32 lcb) := getNode_append_self t _
  have g3 : getNode (⟨t.nodes ++ [newPathNode network (usub 32 lcb)]⟩ : PrefixTrie)
      childIdx = getNode t childIdx := getNode_append_lt t _ childIdx h_ci
  have hni : t.nodes.length ≠ i := Nat.ne_of_gt h_i
  have hin : i ≠ t.nodes.length := Nat.ne_of_lt h_i
  have hnc : t.nodes.length ≠ childIdx := Nat.ne_of_gt h_ci
  have hcn : childIdx ≠ t.nodes.length := Nat.ne_of_lt h_ci
  have e_ipa : insertPrefixAux (fuel + 2)
      (⟨t.nodes ++ [newPathNode network (usub 32 lcb)]⟩ : PrefixTrie) i bit t.nodes.length
      = (splitState t i bit childIdx network lcb pb, none) := by
    conv_lhs => rw [insertPrefixAux]
    simp only [g1, g2, g3, h_child, h_pb]
    conv_lhs => rw [insertPrefixAux]
    simp only [g2, hP, splitState]
  have e_main : insertAux (fuel + 2) t i network =
      insertAux (fuel + 1) (splitState t i bit childIdx network lcb pb)
        t.nodes.length network := by
    conv_lhs => rw [insertAux]
    simp only [h_ne, if_false, h_bit, h_child, h_lcb, h_div, allocNode,
      ite_false, ite_true, if_pos, if_neg, not_false_iff, e_ipa]
  have l1 : (⟨t.nodes ++ [newPathNode network (usub 32 lcb)]⟩ : PrefixTrie).nodes.length
      = t.nodes.length + 1 := by simp
  refine ⟨e_main, ?_, ?_, ?_, ?_, ?_⟩
  · simp only [splitState, setNode_length, l1]
  · rw [splitState]
    rw [getNode_setNode_same _ _ _
      (by simp only [setNode_length, l1]; exact Nat.lt_succ_self _)]
    rw [getNode_setNode_ne _ _ _ _ hin, getNode_setNode_ne _ _ _ _ hcn,
      getNode_setNode_same _ _ _ (by rw [l1]; exact Nat.lt_succ_self _), g2]
  · rw [splitState]
    rw [getNode_setNode_ne _ _ _ _ hni]
    rw [getNode_setNode_same _ _ _
      (by simp only [setNode_length, l1]; exact Nat.lt_succ_of_lt h_i)]
    rw [getNode_setNode_ne _ _ _ _ h_ic, getNode_setNode_ne _ _ _ _ hni, g1,
      getChild_setChildSlot_self]
  · rw [splitState]
    rw [getNode_setNode_ne _ _ _ _ hnc, getNode_setNode_ne _ _ _ _ (Ne.symm h_ic)]
    rw [getNode_setNode_same _ _ _
      (by simp only [setNode_length, l1]; exact Nat.lt_succ_of_lt h_ci)]
    rw [getNode_setNode_ne _ _ _ _ hnc, g3]
  · intro j hj hji hjc
    have hnj : t.nodes.length ≠ j := Nat.ne_of_gt hj
    rw [splitState]
    rw [getNode_setNode_ne _ _ _ _ hnj, getNode_setNode_ne _ _ _ _ (Ne.symm hji),
      getNode_setNode_ne _ _ _ _ (Ne.symm hjc), getNode_setNode_ne _ _ _ _ hnj,
      getNode_append_lt _ _ _ hj]

/-- Witness for C7: the hypotheses hold, and the theorem applies, at the
concrete split performed when 192.168.1.0/24 is inserted into the trie
holding 192.168.0.0/24 and 192.168.0.0/25 (the divergence is at bit 8, so
`lcb = 9` and the fresh branch node is 192.168.0.0/23). -/
theorem claim_C7_witness :
    (0 < stepA2.1.nodes.length ∧ 1 < stepA2.1.nodes.length ∧ (1 : Nat) ≠ 0 ∧
     ¬ (getNode stepA2.1 0).network = NewNetwork 3232235776 24 ∧
     targetBitFromIP (getNode stepA2.1 0) (NewNetwork 3232235776 24).number = .ok 1 ∧
     getChild (getNode stepA2.1 0) 1 = some 1 ∧
     (NewNetwork 3232235776 24).LeastCommonBitPosition (getNode stepA2.1 1).network
       = .ok 9 ∧
     usub 9 1 > targetBitPosition (getNode stepA2.1 1).numBitsSkipped ∧
     targetBitFromIP (newPathNode (NewNetwork 3232235776 24) (usub 32 9))
       (getNode stepA2.1 1).network.number = .ok 0) ∧
    (splitState stepA2.1 0 1 1 (NewNetwork 3232235776 24) 9 0).nodes.length
      = stepA2.1.nodes.length + 1 :=
  ⟨by decide,
   (claim_C7 4 stepA2.1 0 1 1 9 0 (NewNetwork 3232235776 24) (by decide) (by decide)
     (by decide) (by decide) (by decide) (by decide) (by decide) (by decide)
     (by decide)).2.1⟩

theorem removeAux_not_present (fuel : Nat) (t : PrefixTrie) (i : Nat) (network : Network)
    (h : hasEntryBelow fuel t i network = false) :
    (removeAux fuel t i network).1 = t ∧
    ((removeAux fuel t i network).2 = .ok none ∨
     (removeAux fuel t i network).2 = .error .invalidBitPosition) := by
  induction fuel generalizing i with
  | zero => simp [hasEntryBelow] at h
  | succ fuel ih =>
    rw [hasEntryBelow] at h
    simp only [Bool.or_eq_false_iff] at h
    obtain ⟨⟨h1, h2⟩, h3⟩ := h
    have hmatch : ¬ ((getNode t i).hasEntry ∧ (getNode t i).network = network) := by
      rintro ⟨he, hn⟩
      rw [he, hn] at h1
      simp at h1
    rw [removeAux, if_neg hmatch]
    split
    next e he =>
      have hee : e = Err.invalidBitPosition := by
        rw [targetBitFromIP, numBit] at he
        by_cases hpos : targetBitPosition (getNode t i).numBitsSkipped ≥ 32
        · rw [if_pos hpos] at he
          cases he
          rfl
        · rw [if_neg hpos] at he
          simp at he
      subst hee
      exact ⟨rfl, Or.inr rfl⟩
    next bit he =>
      split
      next hgc => exact ⟨rfl, Or.inl rfl⟩
      next c hgc =>
        refine ih c ?_
        rw [getChild] at hgc
        by_cases hb : bit = 0
        · rw [if_pos hb] at hgc
          rw [hgc] at h2
          exact h2
        · rw [if_neg hb] at hgc
          rw [hgc] at h3
          exact h3

/-- C4 (amended): for every trie state and every network `n` that is not in
the inserted set (no reachable node carries the entry flag for `n`),
`Remove(n)` leaves the trie state unchanged — hence all subsequent query
results unchanged — and returns either the explicit not-found result or the
`ErrInvalidBitPosition` error (the latter arises when the descent reaches a
full-length /32 node differing from `n`, whose target bit position wraps
around); it never returns a removed network. -/
theorem claim_C4_amended_remove (t : PrefixTrie) (n : IPNetV4)
    (h : hasEntryBelow (FUEL t) t 0 (NewNetwork n.addr n.ones) = false) :
    (t.Remove n).1 = t ∧
    ((t.Remove n).2 = .ok none ∨ (t.Remove n).2 = .error .invalidBitPosition) :=
  removeAux_not_present (FUEL t) t 0 (NewNetwork n.addr n.ones) h

/-- Witness for the amended C4: removing the absent 1.2.3.5/32 from the
trie holding only 1.2.3.4/32 leaves the state unchanged (and in fact hits
the `InvalidBitPosition` branch of the amended statement). -/
theorem claim_C4_amended_witness :
    hasEntryBelow (FUEL one32.1) one32.1 0 (NewNetwork 16909061 32) = false ∧
    ((one32.1.Remove ⟨16909061, 32⟩).1 = one32.1 ∧
     ((one32.1.Remove ⟨16909061, 32⟩).2 = .ok none ∨
      (one32.1.Remove ⟨16909061, 32⟩).2 = .error .invalidBitPosition)) :=
  ⟨by decide, claim_C4_amended_remove one32.1 ⟨16909061, 32⟩ (by decide)⟩

/-! Arithmetic toolbox -/

theorem usub_small {a b : Nat} (hb : b ≤ a) (ha : a < U64) : usub a b = a - b := by
  rw [usub, Nat.mod_eq_of_lt (show b < U64 from lt_of_le_of_lt hb ha)]
  rw [show a + U64 - b = (a - b) + U64 by omega, Nat.add_mod_right]
  exact Nat.mod_eq_of_lt (by omega)

theorem usub_31_32 : usub 31 32 = U64 - 1 := by decide

theorem usub_0_1 : usub 0 1 = U64 - 1 := by decide

theorem targetBitPosition_small {skip : Nat} (h : skip ≤ 31) :
    targetBitPosition skip = 31 - skip :=
  usub_small h (by decide)

theorem targetBitPosition_32 : targetBitPosition 32 = U64 - 1 := usub_31_32

theorem div_div_pow (a K j : Nat) : a / 2 ^ K / 2 ^ j = a / 2 ^ (K + j) := by
  rw [Nat.div_div_eq_div_mul, pow_add]

theorem bitVal_div_pow (a K j : Nat) : bitVal (a / 2 ^ K) j = bitVal a (K + j) := by
  rw [bitVal, bitVal, div_div_pow]

theorem div_pow_eq_of_bitVal {a b K : Nat}
    (h : ∀ i, K ≤ i → bitVal a i = bitVal b i) : a / 2 ^ K = b / 2 ^ K := by
  apply Nat.eq_of_testBit_eq
  intro j
  rw [Nat.testBit_to_div_mod, Nat.testBit_to_div_mod, div_div_pow, div_div_pow]
  have hh := h (K + j) (Nat.le_add_right _ _)
  rw [bitVal, bitVal] at hh
  rw [hh]

theorem bitVal_of_div_pow_eq {a b K : Nat} (h : a / 2 ^ K = b / 2 ^ K)
    {i : Nat} (hi : K ≤ i) : bitVal a i = bitVal b i := by
  rw [bitVal, bitVal, show i = K + (i - K) by omega, ← div_div_pow, ← div_div_pow, h]

theorem maskAddr_le (a len : Nat) : maskAddr a len ≤ a := Nat.div_mul_le_self _ _

theorem maskAddr_lt32 {a : Nat} (h : a < 2 ^ 32) (len : Nat) : maskAddr a len < 2 ^ 32 :=
  lt_of_le_of_lt (maskAddr_le a len) h

theorem maskAddr_eq_iff {a b len : Nat} :
    maskAddr a len = maskAddr b len ↔ a / 2 ^ (32 - len) = b / 2 ^ (32 - len) := by
  constructor
  · intro h
    exact Nat.eq_of_mul_eq_mul_right (Nat.pos_pow_of_pos _ (by decide)) h
  · intro h
    rw [maskAddr, maskAddr, h]

theorem maskAddr_idem (a len : Nat) : maskAddr (maskAddr a len) len = maskAddr a len := by
  rw [maskAddr, maskAddr, Nat.mul_div_cancel _ (Nat.pos_pow_of_pos _ (by decide))]

theorem div_maskAddr {len k : Nat} (h : 32 - len ≤ k) (a : Nat) :
    maskAddr a len / 2 ^ k = a / 2 ^ k := by
  rw [maskAddr, show k = (32 - len) + (k - (32 - len)) by omega, pow_add,
    ← Nat.div_div_eq_div_mul, Nat.mul_div_cancel _ (Nat.pos_pow_of_pos _ (by decide)),
    div_div_pow, pow_add]

theorem maskAddr_maskAddr {k l : Nat} (h : k ≤ l) (a : Nat) :
    maskAddr (maskAddr a l) k = maskAddr a k := by
  rw [maskAddr, div_maskAddr (by omega), maskAddr]

theorem bitVal_maskAddr_high {i len : Nat} (h : 32 - len ≤ i) (a : Nat) :
    bitVal (maskAddr a len) i = bitVal a i := by
  rw [bitVal, bitVal, div_maskAddr h]

theorem bitVal_maskAddr_low {i len : Nat} (h : i < 32 - len) (a : Nat) :
    bitVal (maskAddr a len) i = 0 := by
  rw [bitVal, maskAddr]
  rw [show (2 : Nat) ^ (32 - len) = 2 ^ (32 - len - i - 1) * 2 * 2 ^ i by
    rw [← pow_succ, ← pow_add]; congr 1; omega]
  rw [← Nat.mul_assoc, Nat.mul_div_cancel _ (Nat.pos_pow_of_pos i (by decide)),
    ← Nat.mul_assoc]
  exact Nat.mul_mod_left _ 2

theorem bitVal_lt_two (a i : Nat) : bitVal a i < 2 := Nat.mod_lt _ (by decide)

theorem bitVal_cases (a i : Nat) : bitVal a i = 0 ∨ bitVal a i = 1 := by
  have := bitVal_lt_two a i
  omega

/-! divergeAux lemmas -/

theorem divergeAux_self (a K : Nat) : divergeAux a a K = none := by
  induction K with
  | zero => rfl
  | succ k ih => rw [divergeAux]; simp [ih]

theorem divergeAux_none {a b K : Nat} (h : divergeAux a b K = none) :
    ∀ i, i < K → bitVal a i = bitVal b i := by
  induction K with
  | zero => intro i hi; omega
  | succ k ih =>
    rw [divergeAux] at h
    intro i hi
    by_cases hbk : bitVal a k ≠ bitVal b k
    · rw [if_pos hbk] at h; cases h
    · rw [if_neg hbk] at h
      push_neg at hbk
      rcases Nat.lt_succ_iff_lt_or_eq.mp hi with hlt | heq
      · exact ih h i hlt
      · rw [heq]; exact hbk

theorem divergeAux_some {a b K d : Nat} (h : divergeAux a b K = some d) :
    d < K ∧ bitVal a d ≠ bitVal b d ∧ ∀ i, d < i → i < K → bitVal a i = bitVal b i := by
  induction K with
  | zero => cases h
  | succ k ih =>
    rw [divergeAux] at h
    by_cases hbk : bitVal a k ≠ bitVal b k
    · rw [if_pos hbk] at h
      cases h
      exact ⟨Nat.lt_succ_self _, hbk, fun i hdi hik => by omega⟩
    · rw [if_neg hbk] at h
      push_neg at hbk
      obtain ⟨h1, h2, h3⟩ := ih h
      refine ⟨Nat.lt_succ_of_lt h1, h2, fun i hdi hik => ?_⟩
      rcases Nat.lt_succ_iff_lt_or_eq.mp hik with hlt | heq
      · exact h3 i hdi hlt
      · rw [heq]; exact hbk

theorem divergeAux_eq_none {a b K : Nat} (h : ∀ i, i < K → bitVal a i = bitVal b i) :
    divergeAux a b K = none := by
  induction K with
  | zero => rfl
  | succ k ih =>
    rw [divergeAux, if_neg (by push_neg; exact h k (Nat.lt_succ_self _))]
    exact ih (fun i hi => h i (Nat.lt_succ_of_lt hi))

theorem bitVal_high_zero {a i : Nat} (ha : a < 2 ^ 32) (hi : 32 ≤ i) : bitVal a i = 0 := by
  rw [bitVal, Nat.div_eq_of_lt (lt_of_lt_of_le ha (Nat.pow_le_pow_right (by decide) hi))]

theorem maskAddr_eq_of_agree {a b k : Nat} (ha : a < 2 ^ 32) (hb : b < 2 ^ 32)
    (h : ∀ i, 32 - k ≤ i → i < 32 → bitVal a i = bitVal b i) :
    maskAddr a k = maskAddr b k := by
  rw [maskAddr_eq_iff]
  apply div_pow_eq_of_bitVal
  intro i hi
  by_cases h32 : i < 32
  · exact h i hi h32
  · rw [bitVal_high_zero ha (by omega), bitVal_high_zero hb (by omega)]

theorem numberLcbPos_ok_agree {a b lcb : Nat} (h : numberLcbPos a b = .ok lcb) :
    ∀ i, lcb ≤ i → i < 32 → bitVal a i = bitVal b i := by
  rw [numberLcbPos] at h
  cases hd : divergeAux a b 32 with
  | none =>
    intro i _ hi
    exact divergeAux_none hd i hi
  | some d =>
    rw [hd] at h
    have hif : (if d = 31 then (.error .noGreatestCommonBit : Except Err Nat)
        else .ok (d + 1)) = .ok lcb := h
    by_cases h31 : d = 31
    · rw [if_pos h31] at hif; cases hif
    · rw [if_neg h31] at hif
      cases hif
      intro i hi h32
      exact (divergeAux_some hd).2.2 i (by omega) h32

theorem numberLcbPos_self (a : Nat) : numberLcbPos a a = .ok 0 := by
  rw [numberLcbPos, divergeAux_self]

theorem numberLcbPos_masked {a k : Nat} (hk : 1 ≤ k) :
    ∃ m, numberLcbPos a (maskAddr a k) = .ok m ∧ m ≤ 32 - k := by
  rw [numberLcbPos]
  cases hd : divergeAux a (maskAddr a k) 32 with
  | none => exact ⟨0, rfl, by omega⟩
  | some d =>
    obtain ⟨hd32, hne, _⟩ := divergeAux_some hd
    have hdlt : d < 32 - k := by
      by_contra hge
      exact hne (by rw [bitVal_maskAddr_high (by omega)])
    refine ⟨d + 1, ?_, by omega⟩
    show (if d = 31 then (.error .noGreatestCommonBit : Except Err Nat)
        else .ok (d + 1)) = .ok (d + 1)
    rw [if_neg (by omega)]

theorem netLcb_ok_elim {n m : Network} {lcb : Nat}
    (h : Network.LeastCommonBitPosition n m = .ok lcb) :
    ∃ x, numberLcbPos n.number m.number = .ok x ∧
      lcb = max (32 - min n.prefixLen m.prefixLen) x := by
  rw [Network.LeastCommonBitPosition] at h
  cases hx : numberLcbPos n.number m.number with
  | error e => rw [hx] at h; cases h
  | ok x =>
    rw [hx] at h
    cases h
    exact ⟨x, rfl, rfl⟩

theorem list_set_getD (l : List Node) (i : Nat) :
    l.set i (l.getD i defaultNode) = l := by
  induction l generalizing i with
  | nil => rfl
  | cons x xs ih =>
    cases i with
    | zero => simp
    | succ j =>
      simp only [List.set, List.getD_cons_succ]
      rw [ih j]

theorem setNode_getNode_self (t : PrefixTrie) (i : Nat) :
    setNode t i (getNode t i) = t := by
  rw [setNode, getNode, list_set_getD]

/-! Congruence lemmas: node conditions only depend on the `network` and
`numBitsSkipped` fields of the nodes an index refers to. -/

theorem childOK_mono {t t' : PrefixTrie} {p : Node} {b : Nat} {oc : Option Nat}
    (h : childOK t p b oc) (hlen : t.nodes.length ≤ t'.nodes.length)
    (hsame : ∀ j, j < t.nodes.length →
      (getNode t' j).network = (getNode t j).network ∧
      (getNode t' j).numBitsSkipped = (getNode t j).numBitsSkipped) :
    childOK t' p b oc := by
  intro c hc
  obtain ⟨h1, h2, h3, h4, h5⟩ := h c hc
  obtain ⟨e1, e2⟩ := hsame c h1
  exact ⟨lt_of_lt_of_le h1 hlen, h2, by rw [e2]; exact h3, by rw [e1]; exact h4,
    by rw [e1]; exact h5⟩

theorem parentOK_mono {t t' : PrefixTrie} {p : Node}
    (h : parentOK t p) (hlen : t.nodes.length ≤ t'.nodes.length)
    (hsame : ∀ j, j < t.nodes.length →
      (getNode t' j).network = (getNode t j).network ∧
      (getNode t' j).numBitsSkipped = (getNode t j).numBitsSkipped) :
    parentOK t' p := by
  intro q hq
  obtain ⟨h1, h2, h3, h4⟩ := h q hq
  obtain ⟨e1, e2⟩ := hsame q h1
  exact ⟨lt_of_lt_of_le h1 hlen, by rw [e2]; exact h2, by rw [e2]; exact h3,
    by rw [e1, e2]; exact h4⟩

theorem nodeOK_mono {t t' : PrefixTrie} {p : Node}
    (h : nodeOK t p) (hlen : t.nodes.length ≤ t'.nodes.length)
    (hsame : ∀ j, j < t.nodes.length →
      (getNode t' j).network = (getNode t j).network ∧
      (getNode t' j).numBitsSkipped = (getNode t j).numBitsSkipped) :
    nodeOK t' p := by
  obtain ⟨h1, h2, h3, h4, h5, h6, h7⟩ := h
  exact ⟨h1, h2, h3, h4, childOK_mono h5 hlen hsame, childOK_mono h6 hlen hsame,
    parentOK_mono h7 hlen hsame⟩

end CidrTrie

namespace CidrTrie

/-! Frame-level helper lemmas -/

theorem targetBitFromIP_ok_small {p : Node} (h : p.numBitsSkipped ≤ 31) (a : Nat) :
    targetBitFromIP p a = .ok (bitVal a (31 - p.numBitsSkipped)) := by
  rw [targetBitFromIP, numBit, targetBitPosition_small h, if_neg (by omega)]

theorem targetBitFromIP_err_32 {p : Node} (h : p.numBitsSkipped = 32) (a : Nat) :
    targetBitFromIP p a = .error .invalidBitPosition := by
  rw [targetBitFromIP, numBit, h, targetBitPosition_32, if_pos (by decide)]

theorem targetBitFromIP_ok_elim {p : Node} {a b : Nat} (hle : p.numBitsSkipped ≤ 32)
    (h : targetBitFromIP p a = .ok b) :
    p.numBitsSkipped ≤ 31 ∧ b = bitVal a (31 - p.numBitsSkipped) := by
  by_cases h31 : p.numBitsSkipped ≤ 31
  · rw [targetBitFromIP_ok_small h31] at h
    cases h
    exact ⟨h31, rfl⟩
  · rw [targetBitFromIP_err_32 (by omega)] at h
    cases h

theorem targetBitFromIP_error_elim {p : Node} {a : Nat} {e : Err}
    (h : targetBitFromIP p a = .error e) : e = .invalidBitPosition := by
  rw [targetBitFromIP, numBit] at h
  by_cases hge : targetBitPosition p.numBitsSkipped ≥ 32
  · rw [if_pos hge] at h
    cases h
    rfl
  · rw [if_neg hge] at h
    cases h

theorem WF_skip_le {t : PrefixTrie} (hwf : WF t) {i : Nat} (hi : i < t.nodes.length) :
    (getNode t i).numBitsSkipped ≤ 32 :=
  (hwf.2.2 i hi).2.2.2.1

theorem WF_setFlag {t : PrefixTrie} (hwf : WF t) {i : Nat} (hi : i < t.nodes.length)
    (b : Bool) : WF (setNode t i { getNode t i with hasEntry := b }) := by
  have hsame : ∀ j, j < t.nodes.length →
      (getNode (setNode t i { getNode t i with hasEntry := b }) j).network
        = (getNode t j).network ∧
      (getNode (setNode t i { getNode t i with hasEntry := b }) j).numBitsSkipped
        = (getNode t j).numBitsSkipped := by
    intro j _
    by_cases hij : i = j
    · subst hij
      rw [getNode_setNode_same _ _ _ hi]
      exact ⟨rfl, rfl⟩
    · rw [getNode_setNode_ne _ _ _ _ hij]
      exact ⟨rfl, rfl⟩
  refine ⟨by rw [setNode_length]; exact hwf.1, ?_, ?_⟩
  · rw [(hsame 0 hwf.1).2]
    exact hwf.2.1
  · intro j hj
    rw [setNode_length] at hj
    have hOK : nodeOK t (getNode t j) := hwf.2.2 j hj
    by_cases hij : i = j
    · subst hij
      rw [getNode_setNode_same _ _ _ hi]
      have : nodeOK t { getNode t i with hasEntry := b } := by
        obtain ⟨h1, h2, h3, h4, h5, h6, h7⟩ := hOK
        exact ⟨h1, h2, h3, h4, h5, h6, h7⟩
      exact nodeOK_mono this (by rw [setNode_length]) hsame
    · rw [getNode_setNode_ne _ _ _ _ hij]
      exact nodeOK_mono hOK (by rw [setNode_length]) hsame

theorem insertAux_equal {fuel : Nat} {t : PrefixTrie} {i : Nat} {n : Network}
    (h : (getNode t i).network = n) :
    insertAux (fuel + 1) t i n = (setNode t i { getNode t i with hasEntry := true }, none) := by
  rw [insertAux, if_pos h]

theorem flag_update_self (p : Node) :
    ({ { p with hasEntry := true } with hasEntry := true } : Node)
      = { p with hasEntry := true } := rfl

theorem insert_post_equal (fuel : Nat) (t : PrefixTrie) (i : Nat) (n : Network)
    (hwf : WF t) (hi : i < t.nodes.length) (heq : (getNode t i).network = n) :
    InsertPost t i n (insertAux (fuel + 1) t i n) := by
  rw [insertAux_equal heq]
  have hskip : (getNode t i).numBitsSkipped ≤ 32 := WF_skip_le hwf hi
  refine ⟨WF_setFlag hwf hi true, by rw [setNode_length], ?_, ?_, ?_, ?_⟩
  · intro j hj
    by_cases hij : i = j
    · subst hij
      rw [getNode_setNode_same _ _ _ hi]
      exact ⟨rfl, rfl⟩
    · rw [getNode_setNode_ne _ _ _ _ hij]
      exact ⟨rfl, rfl⟩
  · intro e he
    cases he
  · intro j hj hlt
    have hij : i ≠ j := by
      intro hh
      subst hh
      omega
    rw [getNode_setNode_ne _ _ _ _ hij]
  · intro _ fuel2 hf2
    have hf2' : 1 ≤ fuel2 := by omega
    cases fuel2 with
    | zero => omega
    | succ g =>
      have hg : (getNode (setNode t i { getNode t i with hasEntry := true }) i).network
          = n := by
        rw [getNode_setNode_same _ _ _ hi]
        exact heq
      rw [insertAux_equal hg]
      have hcollapse : ({ getNode (setNode t i { getNode t i with hasEntry := true }) i
          with hasEntry := true } : Node)
          = getNode (setNode t i { getNode t i with hasEntry := true }) i := by
        rw [getNode_setNode_same _ _ _ hi]
      rw [hcollapse, setNode_getNode_self]

end CidrTrie

namespace CidrTrie

theorem Network.ext' {a b : Network} (h1 : a.number = b.number)
    (h2 : a.prefixLen = b.prefixLen) : a = b := by
  cases a; cases b; cases h1; cases h2; rfl

theorem insertAux_bit_error {fuel : Nat} {t : PrefixTrie} {i : Nat} {n : Network} {e : Err}
    (hne : ¬ (getNode t i).network = n)
    (he : targetBitFromIP (getNode t i) n.number = .error e) :
    insertAux (fuel + 1) t i n = (t, some e) := by
  rw [insertAux, if_neg hne]
  rw [he]

theorem insert_post_error (fuel : Nat) (t : PrefixTrie) (i : Nat) (n : Network) (e : Err)
    (hwf : WF t) (hne : ¬ (getNode t i).network = n)
    (he : targetBitFromIP (getNode t i) n.number = .error e) :
    InsertPost t i n (insertAux (fuel + 1) t i n) := by
  rw [insertAux_bit_error hne he]
  refine ⟨hwf, Nat.le_refl _, fun j _ => ⟨rfl, rfl⟩, ?_, fun j _ _ => rfl, ?_⟩
  · intro e' he'
    injection he' with hee
    subst hee
    refine ⟨rfl, ?_⟩
    rw [targetBitFromIP_error_elim he]
    simp
  · intro hcontra
    cases hcontra

theorem insertAux_attach_eval {fuel : Nat} {t : PrefixTrie} {i bit : Nat} {n : Network}
    (hi : i < t.nodes.length) (hne : ¬ (getNode t i).network = n)
    (hbit : targetBitFromIP (getNode t i) n.number = .ok bit)
    (hslot : getChild (getNode t i) bit = none) :
    insertAux (fuel + 1) t i n = (attachState t i bit n, none) := by
  have g1 : getNode (⟨t.nodes ++ [newEntryNode n]⟩ : PrefixTrie) i = getNode t i :=
    getNode_append_lt t _ i hi
  conv_lhs => rw [insertAux]
  simp only [hne, if_false, hbit, hslot, allocNode, ite_false, if_neg, not_false_iff]
  conv_lhs => rw [insertPrefixAux]
  simp only [g1, hslot, attachState]

theorem attachState_length (t : PrefixTrie) (i bit : Nat) (n : Network) :
    (attachState t i bit n).nodes.length = t.nodes.length + 1 := by
  simp only [attachState, setNode_length]
  simp

theorem attachState_getNode_i {t : PrefixTrie} {i : Nat} (bit : Nat) (n : Network)
    (hi : i < t.nodes.length) :
    getNode (attachState t i bit n) i = setChildSlot (getNode t i) bit (some t.nodes.length) := by
  rw [attachState]
  rw [getNode_setNode_ne _ _ _ _ (Nat.ne_of_gt hi)]
  rw [getNode_setNode_same _ _ _ (by simp; omega)]
  rw [getNode_append_lt t _ i hi]

theorem attachState_getNode_new {t : PrefixTrie} {i : Nat} (bit : Nat) (n : Network)
    (hi : i < t.nodes.length) :
    getNode (attachState t i bit n) t.nodes.length
      = { newEntryNode n with parent := some i } := by
  rw [attachState]
  rw [getNode_setNode_same _ _ _ (by simp only [setNode_length]; simp)]
  rw [getNode_setNode_ne _ _ _ _ (Nat.ne_of_lt hi), getNode_append_self]

theorem attachState_getNode_other {t : PrefixTrie} {i j : Nat} (bit : Nat) (n : Network)
    (hj : j < t.nodes.length) (hji : j ≠ i) :
    getNode (attachState t i bit n) j = getNode t j := by
  rw [attachState]
  rw [getNode_setNode_ne _ _ _ _ (Nat.ne_of_gt hj)]
  rw [getNode_setNode_ne _ _ _ _ (fun h => hji h.symm)]
  rw [getNode_append_lt t _ j hj]

theorem getChild_setChildSlot_other {p : Node} {b b' : Nat} (v : Option Nat)
    (hb : b ≤ 1) (hb' : b' ≤ 1) (hne : b ≠ b') :
    getChild (setChildSlot p b v) b' = getChild p b' := by
  have : (b = 0 ∧ b' = 1) ∨ (b = 1 ∧ b' = 0) := by omega
  rcases this with ⟨h1, h2⟩ | ⟨h1, h2⟩ <;> subst h1 <;> subst h2 <;>
    simp [setChildSlot, getChild]

theorem netLcb_self (n : Network) :
    Network.LeastCommonBitPosition n n = .ok (32 - n.prefixLen) := by
  rw [Network.LeastCommonBitPosition, numberLcbPos_self]
  simp

end CidrTrie

namespace CidrTrie

theorem setChildSlot_network (p : Node) (b : Nat) (v : Option Nat) :
    (setChildSlot p b v).network = p.network := by
  by_cases hb : b = 0 <;> simp [setChildSlot, hb]

theorem setChildSlot_skip (p : Node) (b : Nat) (v : Option Nat) :
    (setChildSlot p b v).numBitsSkipped = p.numBitsSkipped := by
  by_cases hb : b = 0 <;> simp [setChildSlot, hb]

theorem setChildSlot_parent (p : Node) (b : Nat) (v : Option Nat) :
    (setChildSlot p b v).parent = p.parent := by
  by_cases hb : b = 0 <;> simp [setChildSlot, hb]

theorem setChildSlot_child0_of_eq {b : Nat} (h : b = 0) (p : Node) (v : Option Nat) :
    (setChildSlot p b v).child0 = v := by
  subst h; rfl

theorem setChildSlot_child1_of_eq {b : Nat} (h : b = 0) (p : Node) (v : Option Nat) :
    (setChildSlot p b v).child1 = p.child1 := by
  subst h; rfl

theorem setChildSlot_child0_ne {b : Nat} (h : ¬ b = 0) (p : Node) (v : Option Nat) :
    (setChildSlot p b v).child0 = p.child0 := by
  simp [setChildSlot, h]

theorem setChildSlot_child1_ne {b : Nat} (h : ¬ b = 0) (p : Node) (v : Option Nat) :
    (setChildSlot p b v).child1 = v := by
  simp [setChildSlot, h]

theorem childOK_fields {t : PrefixTrie} {p p' : Node} {b : Nat} {oc : Option Nat}
    (h : childOK t p b oc) (hn : p'.network = p.network)
    (hs : p'.numBitsSkipped = p.numBitsSkipped) : childOK t p' b oc := by
  intro c hc
  obtain ⟨h1, h2, h3, h4, h5⟩ := h c hc
  rw [hn, hs]
  exact ⟨h1, h2, h3, h4, h5⟩

theorem parentOK_fields {t : PrefixTrie} {p p' : Node}
    (h : parentOK t p) (hn : p'.network = p.network)
    (hs : p'.numBitsSkipped = p.numBitsSkipped) (hp : p'.parent = p.parent) :
    parentOK t p' := by
  intro q hq
  rw [hp] at hq
  obtain ⟨h1, h2, h3, h4⟩ := h q hq
  rw [hn, hs]
  exact ⟨h1, h2, h3, h4⟩

theorem insertAux_descend_eval {fuel : Nat} {t : PrefixTrie} {i bit c lcb : Nat}
    {n : Network} (hne : ¬ (getNode t i).network = n)
    (hbit : targetBitFromIP (getNode t i) n.number = .ok bit)
    (hslot : getChild (getNode t i) bit = some c)
    (hlcb : Network.LeastCommonBitPosition n (getNode t c).network = .ok lcb)
    (hnsplit : ¬ usub lcb 1 > targetBitPosition (getNode t c).numBitsSkipped) :
    insertAux (fuel + 1) t i n = insertAux fuel t c n := by
  conv_lhs => rw [insertAux]
  simp only [hne, hbit, hslot, hlcb, hnsplit, if_false, ite_false, if_neg, not_false_iff]

theorem insert_post_attach (fuel : Nat) (t : PrefixTrie) (i bit : Nat) (n : Network)
    (hwf : WF t) (hi : i < t.nodes.length) (hval : ValidNet n)
    (hagree : maskAddr n.number (getNode t i).numBitsSkipped = (getNode t i).network.number)
    (hones : (getNode t i).numBitsSkipped ≤ n.prefixLen)
    (hne : ¬ (getNode t i).network = n)
    (hbit : targetBitFromIP (getNode t i) n.number = .ok bit)
    (hslot : getChild (getNode t i) bit = none) :
    InsertPost t i n (insertAux (fuel + 1) t i n) := by
  obtain ⟨hp32, hnum, hmask⟩ := hval
  have hskle : (getNode t i).numBitsSkipped ≤ 32 := WF_skip_le hwf hi
  obtain ⟨hsk31, hbitv⟩ := targetBitFromIP_ok_elim hskle hbit
  have hbit1 : bit ≤ 1 := by
    rw [hbitv]; have := bitVal_lt_two n.number (31 - (getNode t i).numBitsSkipped); omega
  have hiOK := hwf.2.2 i hi
  have hprefi : (getNode t i).network.prefixLen = (getNode t i).numBitsSkipped :=
    hiOK.2.2.1
  have honesgt : (getNode t i).numBitsSkipped < n.prefixLen := by
    rcases Nat.lt_or_ge (getNode t i).numBitsSkipped n.prefixLen with h | h
    · exact h
    · exfalso
      have heq : (getNode t i).numBitsSkipped = n.prefixLen := by omega
      apply hne
      apply Network.ext'
      · rw [← hagree, heq, hmask]
      · rw [hprefi, heq]
  have hE_network : (newEntryNode n).network = n := by
    apply Network.ext'
    · exact hmask
    · rfl
  have hE_skip : (newEntryNode n).numBitsSkipped = n.prefixLen := rfl
  have hnewlen : t.nodes.length < (attachState t i bit n).nodes.length := by
    rw [attachState_length]; omega
  have hgi : getNode (attachState t i bit n) i
      = setChildSlot (getNode t i) bit (some t.nodes.length) :=
    attachState_getNode_i bit n hi
  have hgnew : getNode (attachState t i bit n) t.nodes.length
      = { newEntryNode n with parent := some i } :=
    attachState_getNode_new bit n hi
  have hsame : ∀ j, j < t.nodes.length →
      (getNode (attachState t i bit n) j).network = (getNode t j).network ∧
      (getNode (attachState t i bit n) j).numBitsSkipped
        = (getNode t j).numBitsSkipped := by
    intro j hj
    by_cases hji : j = i
    · subst hji
      rw [hgi, setChildSlot_network, setChildSlot_skip]
      exact ⟨rfl, rfl⟩
    · rw [attachState_getNode_other bit n hj hji]
      exact ⟨rfl, rfl⟩
  have hlenle : t.nodes.length ≤ (attachState t i bit n).nodes.length := by omega
  have hwf' : WF (attachState t i bit n) := by
    refine ⟨by omega, ?_, ?_⟩
    · rw [(hsame 0 hwf.1).2]; exact hwf.2.1
    · intro j hj
      rw [attachState_length] at hj
      rcases Nat.lt_or_ge j t.nodes.length with hjlt | hjge
      · by_cases hji : j = i
        · rw [hji, hgi]
          refine ⟨?_, ?_, ?_, ?_, ?_, ?_, ?_⟩
          · rw [setChildSlot_network]; exact hiOK.1
          · rw [setChildSlot_network]; exact hiOK.2.1
          · rw [setChildSlot_network, setChildSlot_skip]; exact hiOK.2.2.1
          · rw [setChildSlot_skip]; exact hiOK.2.2.2.1
          · -- child0 of the updated node
            by_cases hb0 : bit = 0
            · rw [setChildSlot_child0_of_eq hb0]
              intro c hc
              injection hc with hc
              subst hc
              rw [setChildSlot_skip, setChildSlot_network, hgnew]
              refine ⟨hnewlen, hsk31, ?_, ?_, ?_⟩
              · show (getNode t i).numBitsSkipped < (newEntryNode n).numBitsSkipped
                rw [hE_skip]; exact honesgt
              · show maskAddr (newEntryNode n).network.number _ = _
                rw [hE_network]; exact hagree
              · show bitVal (newEntryNode n).network.number _ = 0
                rw [hE_network, ← hbitv]
                exact hb0
            · rw [setChildSlot_child0_ne hb0]
              have hch : childOK t (getNode t i) 0 (getNode t i).child0 := hiOK.2.2.2.2.1
              exact childOK_fields (childOK_mono hch hlenle hsame)
                (setChildSlot_network _ _ _) (setChildSlot_skip _ _ _)
          · -- child1 of the updated node
            by_cases hb0 : bit = 0
            · rw [setChildSlot_child1_of_eq hb0]
              have hch : childOK t (getNode t i) 1 (getNode t i).child1 := hiOK.2.2.2.2.2.1
              exact childOK_fields (childOK_mono hch hlenle hsame)
                (setChildSlot_network _ _ _) (setChildSlot_skip _ _ _)
            · rw [setChildSlot_child1_ne hb0]
              intro c hc
              injection hc with hc
              subst hc
              rw [setChildSlot_skip, setChildSlot_network, hgnew]
              refine ⟨hnewlen, hsk31, ?_, ?_, ?_⟩
              · show (getNode t i).numBitsSkipped < (newEntryNode n).numBitsSkipped
                rw [hE_skip]; exact honesgt
              · show maskAddr (newEntryNode n).network.number _ = _
                rw [hE_network]; exact hagree
              · show bitVal (newEntryNode n).network.number _ = 1
                rw [hE_network, ← hbitv]
                omega
          · exact parentOK_fields
              (parentOK_mono hiOK.2.2.2.2.2.2 hlenle hsame)
              (setChildSlot_network _ _ _) (setChildSlot_skip _ _ _)
              (setChildSlot_parent _ _ _)
        · rw [attachState_getNode_other bit n hjlt hji]
          exact nodeOK_mono (hwf.2.2 j hjlt) hlenle hsame
      · -- j = t.nodes.length, the fresh entry node
        have hj' : j = t.nodes.length := by omega
        subst hj'
        rw [hgnew]
        refine ⟨?_, ?_, ?_, ?_, ?_, ?_, ?_⟩
        · show (newEntryNode n).network.number < 2 ^ 32
          rw [hE_network]; exact hnum
        · show maskAddr (newEntryNode n).network.number (newEntryNode n).network.prefixLen
            = (newEntryNode n).network.number
          rw [hE_network]; exact hmask
        · show (newEntryNode n).network.prefixLen = (newEntryNode n).numBitsSkipped
          rw [hE_network, hE_skip]
        · show (newEntryNode n).numBitsSkipped ≤ 32
          rw [hE_skip]; exact hp32
        · intro c hc; cases hc
        · intro c hc; cases hc
        · intro q hq
          injection hq with hq
          subst hq
          rw [hgi, setChildSlot_skip, setChildSlot_network]
          refine ⟨by omega, hsk31, ?_, ?_⟩
          · show (getNode t i).numBitsSkipped < (newEntryNode n).numBitsSkipped
            rw [hE_skip]; exact honesgt
          · show maskAddr (newEntryNode n).network.number _ = _
            rw [hE_network]; exact hagree
  rw [insertAux_attach_eval hi hne hbit hslot]
  refine ⟨hwf', hlenle, hsame, ?_, ?_, ?_⟩
  · intro e he
    cases he
  · intro j hj hlt
    have hji : j ≠ i := by
      intro hh
      subst hh
      omega
    exact attachState_getNode_other bit n hj hji
  · intro _ fuel2 hfuel2
    have hf2 : 2 ≤ fuel2 := by omega
    obtain ⟨g, rfl⟩ : ∃ g, fuel2 = g + 2 := ⟨fuel2 - 2, by omega⟩
    have h2ne : ¬ (getNode (attachState t i bit n) i).network = n := by
      rw [hgi, setChildSlot_network]; exact hne
    have h2bit : targetBitFromIP (getNode (attachState t i bit n) i) n.number = .ok bit := by
      rw [hgi]
      have : (setChildSlot (getNode t i) bit (some t.nodes.length)).numBitsSkipped ≤ 31 := by
        rw [setChildSlot_skip]; exact hsk31
      rw [targetBitFromIP_ok_small this, setChildSlot_skip, ← hbitv]
    have h2slot : getChild (getNode (attachState t i bit n) i) bit
        = some t.nodes.length := by
      rw [hgi, getChild_setChildSlot_self]
    have h2net : (getNode (attachState t i bit n) t.nodes.length).network = n := by
      rw [hgnew]
      show (newEntryNode n).network = n
      exact hE_network
    have h2lcb : Network.LeastCommonBitPosition n
        (getNode (attachState t i bit n) t.nodes.length).network
        = .ok (32 - n.prefixLen) := by
      rw [h2net, netLcb_self]
    have h2skip : (getNode (attachState t i bit n) t.nodes.length).numBitsSkipped
        = n.prefixLen := by
      rw [hgnew]
      show (newEntryNode n).numBitsSkipped = n.prefixLen
      exact hE_skip
    have h2nsplit : ¬ usub (32 - n.prefixLen) 1
        > targetBitPosition (getNode (attachState t i bit n) t.nodes.length).numBitsSkipped := by
      rw [h2skip]
      rcases Nat.lt_or_ge n.prefixLen 32 with hlt | hge
      · rw [usub_small (by omega) (by rw [U64]; omega), targetBitPosition_small (by omega)]
        omega
      · have h32 : n.prefixLen = 32 := by omega
        rw [h32]
        show ¬ usub 0 1 > targetBitPosition 32
        rw [usub_0_1, targetBitPosition_32]
        omega
    rw [insertAux_descend_eval h2ne h2bit h2slot h2lcb h2nsplit]
    rw [insertAux_equal h2net]
    have hcollapse : ({ getNode (attachState t i bit n) t.nodes.length
        with hasEntry := true } : Node)
        = getNode (attachState t i bit n) t.nodes.length := by
      rw [hgnew]
      rfl
    rw [hcollapse, setNode_getNode_self]

end CidrTrie

namespace CidrTrie

theorem nodeOK_child_elim {t : PrefixTrie} {p : Node} {b c : Nat}
    (h : nodeOK t p) (hb : b ≤ 1) (hc : getChild p b = some c) :
    c < t.nodes.length ∧ p.numBitsSkipped ≤ 31 ∧
    p.numBitsSkipped < (getNode t c).numBitsSkipped ∧
    maskAddr (getNode t c).network.number p.numBitsSkipped = p.network.number ∧
    bitVal (getNode t c).network.number (31 - p.numBitsSkipped) = b := by
  by_cases hb0 : b = 0
  · subst hb0
    rw [getChild, if_pos rfl] at hc
    exact h.2.2.2.2.1 c hc
  · have hb1 : b = 1 := by omega
    subst hb1
    rw [getChild, if_neg (by omega)] at hc
    exact h.2.2.2.2.2.1 c hc

theorem numberLcbPos_ok_elim {a b x : Nat} (h : numberLcbPos a b = .ok x) :
    x = 0 ∨ (1 ≤ x ∧ x ≤ 31 ∧ bitVal a (x - 1) ≠ bitVal b (x - 1)) := by
  rw [numberLcbPos] at h
  cases hd : divergeAux a b 32 with
  | none =>
    rw [hd] at h
    cases h
    exact Or.inl rfl
  | some d =>
    rw [hd] at h
    have hif : (if d = 31 then (.error .noGreatestCommonBit : Except Err Nat)
        else .ok (d + 1)) = .ok x := h
    by_cases h31 : d = 31
    · rw [if_pos h31] at hif; cases hif
    · rw [if_neg h31] at hif
      cases hif
      obtain ⟨hd32, hne, _⟩ := divergeAux_some hd
      exact Or.inr ⟨by omega, by omega, by simpa using hne⟩

theorem insertAux_split_eval {fuel : Nat} {t : PrefixTrie} {i bit cIdx lcb pb : Nat}
    {n : Network} (hi : i < t.nodes.length) (hci : cIdx < t.nodes.length)
    (hne : ¬ (getNode t i).network = n)
    (hbit : targetBitFromIP (getNode t i) n.number = .ok bit)
    (hslot : getChild (getNode t i) bit = some cIdx)
    (hlcb : n.LeastCommonBitPosition (getNode t cIdx).network = .ok lcb)
    (hsplit : usub lcb 1 > targetBitPosition (getNode t cIdx).numBitsSkipped)
    (hpb : targetBitFromIP (newPathNode n (usub 32 lcb))
        (getNode t cIdx).network.number = .ok pb) :
    insertAux (fuel + 2) t i n
      = insertAux (fuel + 1) (splitState t i bit cIdx n lcb pb) t.nodes.length n := by
  have hP : getChild (newPathNode n (usub 32 lcb)) pb = none :=
    getChild_newPathNode n (usub 32 lcb) pb
  have g1 : getNode (⟨t.nodes ++ [newPathNode n (usub 32 lcb)]⟩ : PrefixTrie) i
      = getNode t i := getNode_append_lt t _ i hi
  have g2 : getNode (⟨t.nodes ++ [newPathNode n (usub 32 lcb)]⟩ : PrefixTrie)
      t.nodes.length = newPathNode n (usub 32 lcb) := getNode_append_self t _
  have g3 : getNode (⟨t.nodes ++ [newPathNode n (usub 32 lcb)]⟩ : PrefixTrie)
      cIdx = getNode t cIdx := getNode_append_lt t _ cIdx hci
  have e_ipa : insertPrefixAux (fuel + 2)
      (⟨t.nodes ++ [newPathNode n (usub 32 lcb)]⟩ : PrefixTrie) i bit t.nodes.length
      = (splitState t i bit cIdx n lcb pb, none) := by
    conv_lhs => rw [insertPrefixAux]
    simp only [g1, g2, g3, hslot, hpb]
    conv_lhs => rw [insertPrefixAux]
    simp only [g2, hP, splitState]
  conv_lhs => rw [insertAux]
  simp only [hne, if_false, hbit, hslot, hlcb, hsplit, allocNode,
    ite_false, ite_true, if_pos, if_neg, not_false_iff, e_ipa]

theorem splitState_length (t : PrefixTrie) (i bit cIdx : Nat) (n : Network)
    (lcb pb : Nat) :
    (splitState t i bit cIdx n lcb pb).nodes.length = t.nodes.length + 1 := by
  simp only [splitState, setNode_length]
  simp

theorem splitState_getNode_new {t : PrefixTrie} {i cIdx : Nat} (bit : Nat) (n : Network)
    (lcb pb : Nat) (hi : i < t.nodes.length) (hci : cIdx < t.nodes.length) :
    getNode (splitState t i bit cIdx n lcb pb) t.nodes.length
      = { setChildSlot (newPathNode n (usub 32 lcb)) pb (some cIdx) with
          parent := some i } := by
  rw [splitState]
  rw [getNode_setNode_same _ _ _ (by simp only [setNode_length]; simp)]
  rw [getNode_setNode_ne _ _ _ _ (Nat.ne_of_lt hi),
    getNode_setNode_ne _ _ _ _ (Nat.ne_of_lt hci),
    getNode_setNode_same _ _ _ (by simp), getNode_append_self]

theorem splitState_getNode_i {t : PrefixTrie} {i cIdx : Nat} (bit : Nat) (n : Network)
    (lcb pb : Nat) (hi : i < t.nodes.length) (hci : cIdx < t.nodes.length)
    (hic : ¬ cIdx = i) :
    getNode (splitState t i bit cIdx n lcb pb) i
      = setChildSlot (getNode t i) bit (some t.nodes.length) := by
  rw [splitState]
  rw [getNode_setNode_ne _ _ _ _ (Nat.ne_of_gt hi)]
  rw [getNode_setNode_same _ _ _ (by simp only [setNode_length]; simp; omega)]
  rw [getNode_setNode_ne _ _ _ _ hic, getNode_setNode_ne _ _ _ _ (Nat.ne_of_gt hi),
    getNode_append_lt _ _ _ hi]

theorem splitState_getNode_c {t : PrefixTrie} {i cIdx : Nat} (bit : Nat) (n : Network)
    (lcb pb : Nat) (hi : i < t.nodes.length) (hci : cIdx < t.nodes.length)
    (hic : ¬ cIdx = i) :
    getNode (splitState t i bit cIdx n lcb pb) cIdx
      = { getNode t cIdx with parent := some t.nodes.length } := by
  rw [splitState]
  rw [getNode_setNode_ne _ _ _ _ (Nat.ne_of_gt hci)]
  rw [getNode_setNode_ne _ _ _ _ (fun h => hic h.symm)]
  rw [getNode_setNode_same _ _ _ (by simp only [setNode_length]; simp; omega)]
  rw [getNode_setNode_ne _ _ _ _ (Nat.ne_of_gt hci), getNode_append_lt _ _ _ hci]

theorem splitState_getNode_other {t : PrefixTrie} {i cIdx j : Nat} (bit : Nat)
    (n : Network) (lcb pb : Nat) (hj : j < t.nodes.length) (hji : ¬ j = i)
    (hjc : ¬ j = cIdx) :
    getNode (splitState t i bit cIdx n lcb pb) j = getNode t j := by
  rw [splitState]
  rw [getNode_setNode_ne _ _ _ _ (Nat.ne_of_gt hj),
    getNode_setNode_ne _ _ _ _ (fun h => hji h.symm),
    getNode_setNode_ne _ _ _ _ (fun h => hjc h.symm),
    getNode_setNode_ne _ _ _ _ (Nat.ne_of_gt hj), getNode_append_lt _ _ _ hj]

end CidrTrie

namespace CidrTrie

theorem netLcb_masked {n : Network} {skp : Nat} (h1 : 1 ≤ skp) (hle : skp ≤ n.prefixLen) :
    Network.LeastCommonBitPosition n ⟨maskAddr n.number skp, skp⟩ = .ok (32 - skp) := by
  obtain ⟨m, hm, hmle⟩ := numberLcbPos_masked (a := n.number) h1
  rw [Network.LeastCommonBitPosition]
  have hm' : numberLcbPos n.number (⟨maskAddr n.number skp, skp⟩ : Network).number
      = .ok m := hm
  rw [hm']
  show Except.ok ((32 - min n.prefixLen skp) ⊔ m) = Except.ok (32 - skp)
  rw [Nat.min_eq_right hle, Nat.max_eq_left (by omega)]

theorem insert_post_lift {t S : PrefixTrie} {i bit pIdx skp : Nat} {n : Network}
    {r : PrefixTrie × Option Err}
    (hpost : InsertPost S pIdx n r) (hr2 : r.2 = none)
    (hlenTS : t.nodes.length ≤ S.nodes.length) (hpIdxS : pIdx < S.nodes.length)
    (hi : i < t.nodes.length)
    (hsameS : ∀ j, j < t.nodes.length →
      (getNode S j).network = (getNode t j).network ∧
      (getNode S j).numBitsSkipped = (getNode t j).numBitsSkipped)
    (hbelowS : ∀ j, j < t.nodes.length →
      (getNode t j).numBitsSkipped < (getNode t i).numBitsSkipped →
      getNode S j = getNode t j)
    (hSi : getNode S i = setChildSlot (getNode t i) bit (some pIdx))
    (hne : ¬ (getNode t i).network = n)
    (hsk31 : (getNode t i).numBitsSkipped ≤ 31)
    (hbitv : bit = bitVal n.number (31 - (getNode t i).numBitsSkipped))
    (hSpskip : (getNode S pIdx).numBitsSkipped = skp)
    (hSpnet : (getNode S pIdx).network = ⟨maskAddr n.number skp, skp⟩)
    (hskp1 : 1 ≤ skp) (hskp31 : skp ≤ 31) (hskpones : skp ≤ n.prefixLen)
    (hskpgt : (getNode t i).numBitsSkipped < skp) :
    InsertPost t i n r := by
  obtain ⟨p1, p2, p3, p4, p5, p6⟩ := hpost
  have hfr1_pIdx_net : (getNode r.1 pIdx).network = ⟨maskAddr n.number skp, skp⟩ := by
    rw [(p3 pIdx hpIdxS).1, hSpnet]
  have hfr1_pIdx_skip : (getNode r.1 pIdx).numBitsSkipped = skp := by
    rw [(p3 pIdx hpIdxS).2, hSpskip]
  have hiS : i < S.nodes.length := lt_of_lt_of_le hi hlenTS
  have hfr1_i : getNode r.1 i = getNode S i := by
    apply p5 i hiS
    rw [(hsameS i hi).2, hSpskip]
    exact hskpgt
  refine ⟨p1, le_trans hlenTS p2, ?_, ?_, ?_, ?_⟩
  · intro j hj
    have hjS : j < S.nodes.length := lt_of_lt_of_le hj hlenTS
    obtain ⟨e1, e2⟩ := p3 j hjS
    obtain ⟨f1, f2⟩ := hsameS j hj
    exact ⟨by rw [e1, f1], by rw [e2, f2]⟩
  · intro e he
    rw [hr2] at he
    cases he
  · intro j hj hlt
    have hjS : j < S.nodes.length := lt_of_lt_of_le hj hlenTS
    have hSj : getNode S j = getNode t j := hbelowS j hj hlt
    have : getNode r.1 j = getNode S j := by
      apply p5 j hjS
      rw [(hsameS j hj).2, hSpskip]
      omega
    rw [this, hSj]
  · intro _ fuel2 hfuel2
    have hf2 : 2 ≤ fuel2 := by omega
    obtain ⟨g, rfl⟩ : ∃ g, fuel2 = g + 1 := ⟨fuel2 - 1, by omega⟩
    have h2ne : ¬ (getNode r.1 i).network = n := by
      rw [hfr1_i, hSi, setChildSlot_network]
      exact hne
    have h2skip : (getNode r.1 i).numBitsSkipped = (getNode t i).numBitsSkipped := by
      rw [hfr1_i, hSi, setChildSlot_skip]
    have h2bit : targetBitFromIP (getNode r.1 i) n.number = .ok bit := by
      rw [targetBitFromIP_ok_small (by rw [h2skip]; exact hsk31), h2skip, ← hbitv]
    have h2slot : getChild (getNode r.1 i) bit = some pIdx := by
      rw [hfr1_i, hSi, getChild_setChildSlot_self]
    have h2lcb : Network.LeastCommonBitPosition n (getNode r.1 pIdx).network
        = .ok (32 - skp) := by
      rw [hfr1_pIdx_net]
      exact netLcb_masked hskp1 hskpones
    have h2nsplit : ¬ usub (32 - skp) 1
        > targetBitPosition (getNode r.1 pIdx).numBitsSkipped := by
      rw [hfr1_pIdx_skip, targetBitPosition_small hskp31,
        usub_small (by omega) (by rw [U64]; omega)]
      omega
    rw [insertAux_descend_eval h2ne h2bit h2slot h2lcb h2nsplit]
    apply p6 hr2
    rw [hSpskip]
    omega

theorem insert_post_split (fuel : Nat) (t : PrefixTrie) (i bit cIdx lcb : Nat)
    (n : Network) (hwf : WF t) (hi : i < t.nodes.length) (hval : ValidNet n)
    (hagree : maskAddr n.number (getNode t i).numBitsSkipped
      = (getNode t i).network.number)
    (hones : (getNode t i).numBitsSkipped ≤ n.prefixLen)
    (hne : ¬ (getNode t i).network = n)
    (hbit : targetBitFromIP (getNode t i) n.number = .ok bit)
    (hslot : getChild (getNode t i) bit = some cIdx)
    (hlcb : n.LeastCommonBitPosition (getNode t cIdx).network = .ok lcb)
    (hsplit : usub lcb 1 > targetBitPosition (getNode t cIdx).numBitsSkipped) :
    InsertPost t i n (insertAux (fuel + 2) t i n) := by
  obtain ⟨hp32, hnum, hmask⟩ := hval
  have hskle : (getNode t i).numBitsSkipped ≤ 32 := WF_skip_le hwf hi
  obtain ⟨hsk31, hbitv⟩ := targetBitFromIP_ok_elim hskle hbit
  have hbit1 : bit ≤ 1 := by
    rw [hbitv]; have := bitVal_lt_two n.number (31 - (getNode t i).numBitsSkipped); omega
  have hiOK := hwf.2.2 i hi
  obtain ⟨hci, _, hskc, hextc, hbitc⟩ := nodeOK_child_elim hiOK hbit1 hslot
  have hcOK := hwf.2.2 cIdx hci
  have hcnum : (getNode t cIdx).network.number < 2 ^ 32 := hcOK.1
  have hcpref : (getNode t cIdx).network.prefixLen = (getNode t cIdx).numBitsSkipped :=
    hcOK.2.2.1
  have hcskle : (getNode t cIdx).numBitsSkipped ≤ 32 := hcOK.2.2.2.1
  have hprefi : (getNode t i).network.prefixLen = (getNode t i).numBitsSkipped :=
    hiOK.2.2.1
  have honesgt : (getNode t i).numBitsSkipped < n.prefixLen := by
    rcases Nat.lt_or_ge (getNode t i).numBitsSkipped n.prefixLen with h | h
    · exact h
    · exfalso
      have heq : (getNode t i).numBitsSkipped = n.prefixLen := by omega
      apply hne
      apply Network.ext'
      · rw [← hagree, heq, hmask]
      · rw [hprefi, heq]
  obtain ⟨x, hx, hlcbeq⟩ := netLcb_ok_elim hlcb
  have hagx := numberLcbPos_ok_agree hx
  have hmaskeq : maskAddr n.number (getNode t i).numBitsSkipped
      = maskAddr (getNode t cIdx).network.number (getNode t i).numBitsSkipped := by
    rw [hagree, ← hextc]
  have hagree_hi : ∀ p, 32 - (getNode t i).numBitsSkipped ≤ p → p < 32 →
      bitVal n.number p = bitVal (getNode t cIdx).network.number p := by
    intro p hp _
    exact bitVal_of_div_pow_eq (maskAddr_eq_iff.mp hmaskeq) hp
  have hagree_at : bitVal n.number (31 - (getNode t i).numBitsSkipped)
      = bitVal (getNode t cIdx).network.number (31 - (getNode t i).numBitsSkipped) := by
    rw [← hbitv, hbitc]
  have hxle : x ≤ 31 - (getNode t i).numBitsSkipped := by
    rcases numberLcbPos_ok_elim hx with h0 | ⟨hx1, hx31, hxne⟩
    · omega
    · by_contra hgt
      push_neg at hgt
      apply hxne
      rcases Nat.eq_or_lt_of_le (show 31 - (getNode t i).numBitsSkipped ≤ x - 1 by omega)
        with heq | hlt
      · rw [← heq]; exact hagree_at
      · exact hagree_hi (x - 1) (by omega) (by omega)
  have hminge : (getNode t i).numBitsSkipped + 1
      ≤ min n.prefixLen (getNode t cIdx).network.prefixLen :=
    Nat.le_min.mpr ⟨by omega, by rw [hcpref]; omega⟩
  have hminle : min n.prefixLen (getNode t cIdx).network.prefixLen ≤ n.prefixLen :=
    Nat.min_le_left _ _
  have hclample : 32 - min n.prefixLen (getNode t cIdx).network.prefixLen ≤ lcb := by
    rw [hlcbeq]; exact Nat.le_max_left _ _
  have hxlelcb : x ≤ lcb := by
    rw [hlcbeq]; exact Nat.le_max_right _ _
  have hlcble : lcb ≤ 31 - (getNode t i).numBitsSkipped := by
    rw [hlcbeq]
    exact Nat.max_le.mpr ⟨by omega, hxle⟩
  have hlcb1 : 1 ≤ lcb := by
    by_contra h0
    push_neg at h0
    have hlcb0 : lcb = 0 := by omega
    have hmin32 : 32 ≤ min n.prefixLen (getNode t cIdx).network.prefixLen := by omega
    have hskc32 : (getNode t cIdx).numBitsSkipped = 32 := by
      have := Nat.min_le_right n.prefixLen (getNode t cIdx).network.prefixLen
      omega
    rw [hlcb0, usub_0_1, hskc32, targetBitPosition_32] at hsplit
    exact lt_irrefl _ hsplit
  have husub32 : usub 32 lcb = 32 - lcb :=
    usub_small (by omega) (by rw [U64]; norm_num)
  have hskP1 : 1 ≤ 32 - lcb := by omega
  have hskP31 : 32 - lcb ≤ 31 := by omega
  have hskPgt : (getNode t i).numBitsSkipped < 32 - lcb := by omega
  have hskPones : 32 - lcb ≤ n.prefixLen := by omega
  have hskPc : 32 - lcb < (getNode t cIdx).numBitsSkipped := by
    rcases Nat.lt_or_ge (getNode t cIdx).numBitsSkipped 32 with hlt | hge
    · rw [targetBitPosition_small (by omega),
        usub_small (by omega) (by rw [U64]; omega)] at hsplit
      omega
    · omega
  have hextPc : maskAddr (getNode t cIdx).network.number (32 - lcb)
      = maskAddr n.number (32 - lcb) := by
    symm
    apply maskAddr_eq_of_agree hnum hcnum
    intro p hp hp32
    exact hagx p (by omega) hp32
  have hPskip : (newPathNode n (usub 32 lcb)).numBitsSkipped = 32 - lcb := by
    show usub 32 lcb = 32 - lcb
    exact husub32
  have hPnet : (newPathNode n (usub 32 lcb)).network
      = ⟨maskAddr n.number (32 - lcb), 32 - lcb⟩ := by
    show Network.Masked n (usub 32 lcb) = _
    rw [Network.Masked, husub32]
  have hpbok : targetBitFromIP (newPathNode n (usub 32 lcb))
      (getNode t cIdx).network.number
      = .ok (bitVal (getNode t cIdx).network.number (31 - (32 - lcb))) := by
    rw [targetBitFromIP_ok_small (by rw [hPskip]; omega), hPskip]
  have hpb1 : bitVal (getNode t cIdx).network.number (31 - (32 - lcb)) ≤ 1 := by
    have := bitVal_lt_two (getNode t cIdx).network.number (31 - (32 - lcb)); omega
  have hicne : ¬ cIdx = i := by
    intro h
    rw [h] at hskc
    exact lt_irrefl _ hskc
  rw [insertAux_split_eval hi hci hne hbit hslot hlcb hsplit hpbok]
  have hS_len : (splitState t i bit cIdx n lcb
      (bitVal (getNode t cIdx).network.number (31 - (32 - lcb)))).nodes.length
      = t.nodes.length + 1 := splitState_length t i bit cIdx n lcb _
  have hS_i : getNode (splitState t i bit cIdx n lcb
      (bitVal (getNode t cIdx).network.number (31 - (32 - lcb)))) i
      = setChildSlot (getNode t i) bit (some t.nodes.length) :=
    splitState_getNode_i bit n lcb _ hi hci hicne
  have hS_c : getNode (splitState t i bit cIdx n lcb
      (bitVal (getNode t cIdx).network.number (31 - (32 - lcb)))) cIdx
      = { getNode t cIdx with parent := some t.nodes.length } :=
    splitState_getNode_c bit n lcb _ hi hci hicne
  have hS_new : getNode (splitState t i bit cIdx n lcb
      (bitVal (getNode t cIdx).network.number (31 - (32 - lcb)))) t.nodes.length
      = { setChildSlot (newPathNode n (usub 32 lcb))
          (bitVal (getNode t cIdx).network.number (31 - (32 - lcb))) (some cIdx) with
          parent := some i } :=
    splitState_getNode_new bit n lcb _ hi hci
  have hS_new_skip : (getNode (splitState t i bit cIdx n lcb
      (bitVal (getNode t cIdx).network.number (31 - (32 - lcb)))) t.nodes.length).numBitsSkipped
      = 32 - lcb := by
    rw [hS_new]
    show (setChildSlot (newPathNode n (usub 32 lcb)) _ _).numBitsSkipped = 32 - lcb
    rw [setChildSlot_skip, hPskip]
  have hS_new_net : (getNode (splitState t i bit cIdx n lcb
      (bitVal (getNode t cIdx).network.number (31 - (32 - lcb)))) t.nodes.length).network
      = ⟨maskAddr n.number (32 - lcb), 32 - lcb⟩ := by
    rw [hS_new]
    show (setChildSlot (newPathNode n (usub 32 lcb)) _ _).network = _
    rw [setChildSlot_network, hPnet]
  have hsameS : ∀ j, j < t.nodes.length →
      (getNode (splitState t i bit cIdx n lcb
        (bitVal (getNode t cIdx).network.number (31 - (32 - lcb)))) j).network
        = (getNode t j).network ∧
      (getNode (splitState t i bit cIdx n lcb
        (bitVal (getNode t cIdx).network.number (31 - (32 - lcb)))) j).numBitsSkipped
        = (getNode t j).numBitsSkipped := by
    intro j hj
    by_cases hji : j = i
    · rw [hji, hS_i, setChildSlot_network, setChildSlot_skip]
      exact ⟨rfl, rfl⟩
    · by_cases hjc : j = cIdx
      · rw [hjc, hS_c]
        exact ⟨rfl, rfl⟩
      · rw [splitState_getNode_other bit n lcb _ hj hji hjc]
        exact ⟨rfl, rfl⟩
  have hbelowS : ∀ j, j < t.nodes.length →
      (getNode t j).numBitsSkipped < (getNode t i).numBitsSkipped →
      getNode (splitState t i bit cIdx n lcb
        (bitVal (getNode t cIdx).network.number (31 - (32 - lcb)))) j = getNode t j := by
    intro j hj hlt
    apply splitState_getNode_other
    · exact hj
    · intro hh
      rw [hh] at hlt
      exact lt_irrefl _ hlt
    · intro hh
      rw [hh] at hlt
      omega
  have hlenle : t.nodes.length ≤ (splitState t i bit cIdx n lcb
      (bitVal (getNode t cIdx).network.number (31 - (32 - lcb)))).nodes.length := by
    omega
  have hwfS : WF (splitState t i bit cIdx n lcb
      (bitVal (getNode t cIdx).network.number (31 - (32 - lcb)))) := by
    refine ⟨by omega, ?_, ?_⟩
    · rw [(hsameS 0 hwf.1).2]
      exact hwf.2.1
    · intro j hj
      rw [hS_len] at hj
      rcases Nat.lt_or_ge j t.nodes.length with hjlt | hjge
      · by_cases hji : j = i
        · rw [hji, hS_i]
          refine ⟨?_, ?_, ?_, ?_, ?_, ?_, ?_⟩
          · rw [setChildSlot_network]; exact hiOK.1
          · rw [setChildSlot_network]; exact hiOK.2.1
          · rw [setChildSlot_network, setChildSlot_skip]; exact hiOK.2.2.1
          · rw [setChildSlot_skip]; exact hiOK.2.2.2.1
          · by_cases hb0 : bit = 0
            · rw [setChildSlot_child0_of_eq hb0]
              intro c hc
              injection hc with hc
              subst hc
              rw [setChildSlot_skip, setChildSlot_network, hS_new_skip, hS_new_net]
              refine ⟨by omega, hsk31, hskPgt, ?_, ?_⟩
              · show maskAddr (maskAddr n.number (32 - lcb)) _ = _
                rw [maskAddr_maskAddr (by omega), hagree]
              · show bitVal (maskAddr n.number (32 - lcb)) _ = 0
                rw [bitVal_maskAddr_high (by omega), ← hbitv]
                exact hb0
            · rw [setChildSlot_child0_ne hb0]
              exact childOK_fields (childOK_mono hiOK.2.2.2.2.1 hlenle hsameS)
                (setChildSlot_network _ _ _) (setChildSlot_skip _ _ _)
          · by_cases hb0 : bit = 0
            · rw [setChildSlot_child1_of_eq hb0]
              exact childOK_fields (childOK_mono hiOK.2.2.2.2.2.1 hlenle hsameS)
                (setChildSlot_network _ _ _) (setChildSlot_skip _ _ _)
            · rw [setChildSlot_child1_ne hb0]
              intro c hc
              injection hc with hc
              subst hc
              rw [setChildSlot_skip, setChildSlot_network, hS_new_skip, hS_new_net]
              refine ⟨by omega, hsk31, hskPgt, ?_, ?_⟩
              · show maskAddr (maskAddr n.number (32 - lcb)) _ = _
                rw [maskAddr_maskAddr (by omega), hagree]
              · show bitVal (maskAddr n.number (32 - lcb)) _ = 1
                rw [bitVal_maskAddr_high (by omega), ← hbitv]
                omega
          · exact parentOK_fields (parentOK_mono hiOK.2.2.2.2.2.2 hlenle hsameS)
              (setChildSlot_network _ _ _) (setChildSlot_skip _ _ _)
              (setChildSlot_parent _ _ _)
        · by_cases hjc : j = cIdx
          · rw [hjc, hS_c]
            refine ⟨hcOK.1, hcOK.2.1, hcOK.2.2.1, hcOK.2.2.2.1, ?_, ?_, ?_⟩
            · exact childOK_fields (childOK_mono hcOK.2.2.2.2.1 hlenle hsameS) rfl rfl
            · exact childOK_fields (childOK_mono hcOK.2.2.2.2.2.1 hlenle hsameS) rfl rfl
            · intro q hq
              injection hq with hq
              subst hq
              rw [hS_new_skip, hS_new_net]
              refine ⟨by omega, by omega, hskPc, ?_⟩
              show maskAddr (getNode t cIdx).network.number (32 - lcb)
                = (⟨maskAddr n.number (32 - lcb), 32 - lcb⟩ : Network).number
              rw [hextPc]
          · rw [splitState_getNode_other bit n lcb _ hjlt hji hjc]
            exact nodeOK_mono (hwf.2.2 j hjlt) hlenle hsameS
      · have hj' : j = t.nodes.length := by omega
        rw [hj', hS_new]
        refine ⟨?_, ?_, ?_, ?_, ?_, ?_, ?_⟩
        · show (setChildSlot (newPathNode n (usub 32 lcb)) _ _).network.number < 2 ^ 32
          rw [setChildSlot_network, hPnet]
          exact maskAddr_lt32 hnum _
        · show maskAddr (setChildSlot (newPathNode n (usub 32 lcb)) _ _).network.number
            (setChildSlot (newPathNode n (usub 32 lcb)) _ _).network.prefixLen
            = (setChildSlot (newPathNode n (usub 32 lcb)) _ _).network.number
          rw [setChildSlot_network, hPnet]
          exact maskAddr_idem _ _
        · show (setChildSlot (newPathNode n (usub 32 lcb)) _ _).network.prefixLen
            = (setChildSlot (newPathNode n (usub 32 lcb)) _ _).numBitsSkipped
          rw [setChildSlot_network, setChildSlot_skip, hPnet, hPskip]
        · show (setChildSlot (newPathNode n (usub 32 lcb)) _ _).numBitsSkipped ≤ 32
          rw [setChildSlot_skip, hPskip]
          omega
        · by_cases hb0 : bitVal (getNode t cIdx).network.number (31 - (32 - lcb)) = 0
          · rw [setChildSlot_child0_of_eq hb0]
            intro c hc
            injection hc with hc
            subst hc
            rw [setChildSlot_skip, setChildSlot_network, hPskip, hPnet]
            refine ⟨by omega, by omega, ?_, ?_, ?_⟩
            · show 32 - lcb < (getNode (splitState t i bit cIdx n lcb
                (bitVal (getNode t cIdx).network.number (31 - (32 - lcb)))) cIdx).numBitsSkipped
              rw [hS_c]
              exact hskPc
            · show maskAddr (getNode (splitState t i bit cIdx n lcb
                (bitVal (getNode t cIdx).network.number (31 - (32 - lcb)))) cIdx).network.number
                (32 - lcb) = _
              rw [hS_c]
              show maskAddr (getNode t cIdx).network.number (32 - lcb) = _
              rw [hextPc]
            · show bitVal (getNode (splitState t i bit cIdx n lcb
                (bitVal (getNode t cIdx).network.number (31 - (32 - lcb)))) cIdx).network.number
                (31 - (32 - lcb)) = 0
              rw [hS_c]
              exact hb0
          · rw [setChildSlot_child0_ne hb0]
            intro c hc
            cases hc
        · by_cases hb0 : bitVal (getNode t cIdx).network.number (31 - (32 - lcb)) = 0
          · rw [setChildSlot_child1_of_eq hb0]
            intro c hc
            cases hc
          · rw [setChildSlot_child1_ne hb0]
            intro c hc
            injection hc with hc
            subst hc
            rw [setChildSlot_skip, setChildSlot_network, hPskip, hPnet]
            refine ⟨by omega, by omega, ?_, ?_, ?_⟩
            · show 32 - lcb < (getNode (splitState t i bit cIdx n lcb
                (bitVal (getNode t cIdx).network.number (31 - (32 - lcb)))) cIdx).numBitsSkipped
              rw [hS_c]
              exact hskPc
            · show maskAddr (getNode (splitState t i bit cIdx n lcb
                (bitVal (getNode t cIdx).network.number (31 - (32 - lcb)))) cIdx).network.number
                (32 - lcb) = _
              rw [hS_c]
              show maskAddr (getNode t cIdx).network.number (32 - lcb) = _
              rw [hextPc]
            · show bitVal (getNode (splitState t i bit cIdx n lcb
                (bitVal (getNode t cIdx).network.number (31 - (32 - lcb)))) cIdx).network.number
                (31 - (32 - lcb)) = 1
              rw [hS_c]
              show bitVal (getNode t cIdx).network.number (31 - (32 - lcb)) = 1
              omega
        · intro q hq
          have hq' : i = q := by
            injection hq with hq2
          rw [← hq', hS_i]
          refine ⟨by omega, ?_, ?_, ?_⟩
          · rw [setChildSlot_skip]
            exact hsk31
          · show (setChildSlot (getNode t i) bit (some t.nodes.length)).numBitsSkipped
              < (setChildSlot (newPathNode n (usub 32 lcb))
                (bitVal (getNode t cIdx).network.number (31 - (32 - lcb)))
                (some cIdx)).numBitsSkipped
            simp only [setChildSlot_skip]
            rw [hPskip]
            exact hskPgt
          · show maskAddr (setChildSlot (newPathNode n (usub 32 lcb))
                (bitVal (getNode t cIdx).network.number (31 - (32 - lcb)))
                (some cIdx)).network.number
              (setChildSlot (getNode t i) bit (some t.nodes.length)).numBitsSkipped
              = (setChildSlot (getNode t i) bit (some t.nodes.length)).network.number
            simp only [setChildSlot_network, setChildSlot_skip]
            rw [hPnet]
            show maskAddr (maskAddr n.number (32 - lcb)) (getNode t i).numBitsSkipped
              = (getNode t i).network.number
            rw [maskAddr_maskAddr (by omega), hagree]
  by_cases hPn : (getNode (splitState t i bit cIdx n lcb
      (bitVal (getNode t cIdx).network.number (31 - (32 - lcb)))) t.nodes.length).network
      = n
  · have hpost := insert_post_equal fuel (splitState t i bit cIdx n lcb
      (bitVal (getNode t cIdx).network.number (31 - (32 - lcb)))) t.nodes.length n hwfS
      (by omega) hPn
    have hr2 : (insertAux (fuel + 1) (splitState t i bit cIdx n lcb
        (bitVal (getNode t cIdx).network.number (31 - (32 - lcb)))) t.nodes.length n).2
        = none := by
      rw [insertAux_equal hPn]
    exact insert_post_lift hpost hr2 hlenle (by omega) hi hsameS hbelowS hS_i hne hsk31
      hbitv hS_new_skip hS_new_net hskP1 hskP31 hskPones hskPgt
  · have hbne : ¬ bitVal n.number (31 - (32 - lcb))
        = bitVal (getNode t cIdx).network.number (31 - (32 - lcb)) := by
      rcases Nat.eq_or_lt_of_le hxlelcb with hxeq | hxlt
      · rcases numberLcbPos_ok_elim hx with h0 | ⟨hx1, hx31, hxne⟩
        · omega
        · have hpos : 31 - (32 - lcb) = x - 1 := by omega
          rw [hpos]
          exact hxne
      · exfalso
        have hA : lcb = 32 - min n.prefixLen (getNode t cIdx).network.prefixLen := by
          rcases max_choice (32 - min n.prefixLen (getNode t cIdx).network.prefixLen) x
            with hmx | hmx
          · rw [hlcbeq, hmx]
          · rw [hmx] at hlcbeq
            omega
        rcases min_choice n.prefixLen (getNode t cIdx).network.prefixLen with hmn | hmn
        · rw [hmn] at hA
          apply hPn
          rw [hS_new_net]
          have hlcbones : 32 - lcb = n.prefixLen := by omega
          apply Network.ext'
          · show maskAddr n.number (32 - lcb) = n.number
            rw [hlcbones, hmask]
          · exact hlcbones
        · rw [hmn, hcpref] at hA
          omega
    have hbnE1 : bitVal n.number (31 - (32 - lcb)) ≤ 1 := by
      have := bitVal_lt_two n.number (31 - (32 - lcb))
      omega
    have hbitP : targetBitFromIP (getNode (splitState t i bit cIdx n lcb
        (bitVal (getNode t cIdx).network.number (31 - (32 - lcb)))) t.nodes.length)
        n.number
        = .ok (bitVal n.number (31 - (getNode (splitState t i bit cIdx n lcb
          (bitVal (getNode t cIdx).network.number (31 - (32 - lcb))))
            t.nodes.length).numBitsSkipped)) :=
      targetBitFromIP_ok_small (by rw [hS_new_skip]; omega) n.number
    have hslotP : getChild (getNode (splitState t i bit cIdx n lcb
        (bitVal (getNode t cIdx).network.number (31 - (32 - lcb)))) t.nodes.length)
        (bitVal n.number (31 - (getNode (splitState t i bit cIdx n lcb
          (bitVal (getNode t cIdx).network.number (31 - (32 - lcb))))
            t.nodes.length).numBitsSkipped)) = none := by
      rw [hS_new_skip, hS_new]
      show getChild (setChildSlot (newPathNode n (usub 32 lcb))
        (bitVal (getNode t cIdx).network.number (31 - (32 - lcb))) (some cIdx))
        (bitVal n.number (31 - (32 - lcb))) = none
      rw [getChild_setChildSlot_other (some cIdx) hpb1 hbnE1 (fun h => hbne h.symm)]
      exact getChild_newPathNode n (usub 32 lcb) _
    have hagreeP : maskAddr n.number (getNode (splitState t i bit cIdx n lcb
        (bitVal (getNode t cIdx).network.number (31 - (32 - lcb))))
          t.nodes.length).numBitsSkipped
        = (getNode (splitState t i bit cIdx n lcb
          (bitVal (getNode t cIdx).network.number (31 - (32 - lcb))))
            t.nodes.length).network.number := by
      rw [hS_new_skip, hS_new_net]
    have honesP : (getNode (splitState t i bit cIdx n lcb
        (bitVal (getNode t cIdx).network.number (31 - (32 - lcb))))
          t.nodes.length).numBitsSkipped ≤ n.prefixLen := by
      rw [hS_new_skip]
      exact hskPones
    have hpost := insert_post_attach fuel (splitState t i bit cIdx n lcb
      (bitVal (getNode t cIdx).network.number (31 - (32 - lcb)))) t.nodes.length _ n hwfS
      (by omega) ⟨hp32, hnum, hmask⟩ hagreeP honesP hPn hbitP hslotP
    have hr2 : (insertAux (fuel + 1) (splitState t i bit cIdx n lcb
        (bitVal (getNode t cIdx).network.number (31 - (32 - lcb)))) t.nodes.length n).2
        = none := by
      rw [insertAux_attach_eval (by omega) hPn hbitP hslotP]
    exact insert_post_lift hpost hr2 hlenle (by omega) hi hsameS hbelowS hS_i hne hsk31
      hbitv hS_new_skip hS_new_net hskP1 hskP31 hskPones hskPgt

end CidrTrie

namespace CidrTrie

theorem insertAux_lcb_error {fuel : Nat} {t : PrefixTrie} {i bit c : Nat} {n : Network}
    {e : Err} (hne : ¬ (getNode t i).network = n)
    (hbit : targetBitFromIP (getNode t i) n.number = .ok bit)
    (hslot : getChild (getNode t i) bit = some c)
    (hlcb : Network.LeastCommonBitPosition n (getNode t c).network = .error e) :
    insertAux (fuel + 1) t i n = (t, some e) := by
  conv_lhs => rw [insertAux]
  simp only [hne, hbit, hslot, hlcb, if_false, ite_false, if_neg, not_false_iff]

theorem numberLcbPos_error_elim {a b : Nat} {e : Err}
    (h : numberLcbPos a b = .error e) : e = Err.noGreatestCommonBit := by
  rw [numberLcbPos] at h
  split at h
  · cases h
  · split at h
    · injection h with h2
      exact h2.symm
    · cases h

theorem netLcb_error_elim {n m : Network} {e : Err}
    (h : Network.LeastCommonBitPosition n m = .error e) :
    e = Err.noGreatestCommonBit := by
  rw [Network.LeastCommonBitPosition] at h
  cases hx : numberLcbPos n.number m.number with
  | error e2 =>
    rw [hx] at h
    injection h with h2
    rw [← h2]
    exact numberLcbPos_error_elim hx
  | ok x =>
    rw [hx] at h
    cases h

theorem insert_post_lcb_error (fuel : Nat) (t : PrefixTrie) (i bit c : Nat) (n : Network)
    (e : Err) (hwf : WF t) (hne : ¬ (getNode t i).network = n)
    (hbit : targetBitFromIP (getNode t i) n.number = .ok bit)
    (hslot : getChild (getNode t i) bit = some c)
    (hlcb : Network.LeastCommonBitPosition n (getNode t c).network = .error e) :
    InsertPost t i n (insertAux (fuel + 1) t i n) := by
  rw [insertAux_lcb_error hne hbit hslot hlcb]
  refine ⟨hwf, Nat.le_refl _, fun j _ => ⟨rfl, rfl⟩, ?_, fun j _ _ => rfl, ?_⟩
  · intro e2 he2
    injection he2 with hee
    refine ⟨rfl, ?_⟩
    rw [← hee, netLcb_error_elim hlcb]
    simp
  · intro hcontra
    cases hcontra

theorem insert_post_descend {t : PrefixTrie} {i bit c lcb : Nat} {n : Network}
    {r : PrefixTrie × Option Err} (hpost : InsertPost t c n r)
    (hne : ¬ (getNode t i).network = n)
    (hbit : targetBitFromIP (getNode t i) n.number = .ok bit)
    (hslot : getChild (getNode t i) bit = some c)
    (hlcb : Network.LeastCommonBitPosition n (getNode t c).network = .ok lcb)
    (hnsplit : ¬ usub lcb 1 > targetBitPosition (getNode t c).numBitsSkipped)
    (hi : i < t.nodes.length) (hc : c < t.nodes.length)
    (hskic : (getNode t i).numBitsSkipped < (getNode t c).numBitsSkipped)
    (hski32 : (getNode t i).numBitsSkipped ≤ 32) :
    InsertPost t i n r := by
  obtain ⟨p1, p2, p3, p4, p5, p6⟩ := hpost
  refine ⟨p1, p2, p3, p4, ?_, ?_⟩
  · intro j hj hlt
    exact p5 j hj (lt_trans hlt hskic)
  · intro hr2 fuel2 hf2
    cases fuel2 with
    | zero => omega
    | succ g =>
      have hri : getNode r.1 i = getNode t i := p5 i hi hskic
      have hnc := p3 c hc
      rw [insertAux_descend_eval (by rw [hri]; exact hne) (by rw [hri]; exact hbit)
        (by rw [hri]; exact hslot) (by rw [hnc.1]; exact hlcb)
        (by rw [hnc.2]; exact hnsplit)]
      exact p6 hr2 g (by omega)

theorem insert_post_main : ∀ (fuel : Nat) (t : PrefixTrie) (i : Nat) (n : Network),
    WF t → i < t.nodes.length → ValidNet n → FramePre t i n →
    33 - (getNode t i).numBitsSkipped ≤ fuel →
    InsertPost t i n (insertAux fuel t i n) := by
  intro fuel
  induction fuel with
  | zero =>
    intro t i n hwf hi _ _ hfuel
    have := WF_skip_le hwf hi
    omega
  | succ f ih =>
    intro t i n hwf hi hval hpre hfuel
    by_cases heq : (getNode t i).network = n
    · exact insert_post_equal f t i n hwf hi heq
    · cases hbit : targetBitFromIP (getNode t i) n.number with
      | error e => exact insert_post_error f t i n e hwf heq hbit
      | ok bit =>
        have hskle : (getNode t i).numBitsSkipped ≤ 32 := WF_skip_le hwf hi
        obtain ⟨hsk31, hbitv⟩ := targetBitFromIP_ok_elim hskle hbit
        obtain ⟨hagree, hones⟩ : maskAddr n.number (getNode t i).numBitsSkipped
            = (getNode t i).network.number ∧
            (getNode t i).numBitsSkipped ≤ n.prefixLen := by
          rcases hpre with h32 | hok
          · omega
          · exact hok
        cases hslot : getChild (getNode t i) bit with
        | none =>
          exact insert_post_attach f t i bit n hwf hi hval hagree hones heq hbit hslot
        | some c =>
          cases hlcb : Network.LeastCommonBitPosition n (getNode t c).network with
          | error e =>
            exact insert_post_lcb_error f t i bit c n e hwf heq hbit hslot hlcb
          | ok lcb =>
            by_cases hsplit :
                usub lcb 1 > targetBitPosition (getNode t c).numBitsSkipped
            · cases f with
              | zero => omega
              | succ g =>
                exact insert_post_split g t i bit c lcb n hwf hi hval hagree hones
                  heq hbit hslot hlcb hsplit
            · rw [insertAux_descend_eval heq hbit hslot hlcb hsplit]
              have hbit1 : bit ≤ 1 := by
                rw [hbitv]
                have := bitVal_lt_two n.number (31 - (getNode t i).numBitsSkipped)
                omega
              have hiOK := hwf.2.2 i hi
              obtain ⟨hc, _, hskc, hextc, hbitc⟩ := nodeOK_child_elim hiOK hbit1 hslot
              have hcOK := hwf.2.2 c hc
              have hcnum : (getNode t c).network.number < 2 ^ 32 := hcOK.1
              have hcmask : maskAddr (getNode t c).network.number
                  (getNode t c).network.prefixLen = (getNode t c).network.number :=
                hcOK.2.1
              have hcpref : (getNode t c).network.prefixLen
                  = (getNode t c).numBitsSkipped := hcOK.2.2.1
              have hcskle : (getNode t c).numBitsSkipped ≤ 32 := hcOK.2.2.2.1
              obtain ⟨hp32, hnum, hmask⟩ := id hval
              have hpreC : FramePre t c n := by
                rcases Nat.eq_or_lt_of_le hcskle with h32 | hlt32
                · exact Or.inl h32
                · right
                  have hsk31c : (getNode t c).numBitsSkipped ≤ 31 := by omega
                  have hlcb1 : 1 ≤ lcb := by
                    by_contra h0
                    push_neg at h0
                    have h00 : lcb = 0 := by omega
                    rw [h00, usub_0_1, targetBitPosition_small hsk31c] at hsplit
                    apply hsplit
                    rw [U64]
                    omega
                  obtain ⟨x, hx, hlcbeq⟩ := netLcb_ok_elim hlcb
                  have hagx := numberLcbPos_ok_agree hx
                  have hxb : x ≤ 31 := by
                    rcases numberLcbPos_ok_elim hx with h0 | ⟨_, hx31, _⟩
                    · omega
                    · exact hx31
                  have hlcb32 : lcb ≤ 32 := by
                    rw [hlcbeq]
                    exact Nat.max_le.mpr ⟨by omega, by omega⟩
                  have hlcble : lcb ≤ 32 - (getNode t c).numBitsSkipped := by
                    rw [usub_small hlcb1 (by rw [U64]; omega),
                      targetBitPosition_small hsk31c] at hsplit
                    omega
                  have hclam : 32 - min n.prefixLen (getNode t c).network.prefixLen
                      ≤ lcb := by
                    rw [hlcbeq]
                    exact Nat.le_max_left _ _
                  have hminle : min n.prefixLen (getNode t c).network.prefixLen
                      ≤ n.prefixLen := Nat.min_le_left _ _
                  have hxlelcb : x ≤ lcb := by
                    rw [hlcbeq]
                    exact Nat.le_max_right _ _
                  constructor
                  · have heqm : maskAddr n.number (getNode t c).numBitsSkipped
                        = maskAddr (getNode t c).network.number
                          (getNode t c).numBitsSkipped := by
                      apply maskAddr_eq_of_agree hnum hcnum
                      intro p hp hp32x
                      exact hagx p (by omega) hp32x
                    rw [heqm, ← hcpref]
                    exact hcmask
                  · omega
              have hpost := ih t c n hwf hc hval hpreC (by omega)
              exact insert_post_descend hpost heq hbit hslot hlcb hsplit hi hc hskc hskle

end CidrTrie

namespace CidrTrie

theorem splice_wf {t : PrefixTrie} {i parentIdx parentBits : Nat} {n : Network}
    (hwf : WF t) (hi : i < t.nodes.length)
    (hparent : (getNode t i).parent = some parentIdx)
    (hbits : targetBitFromIP (getNode t parentIdx) n.number = .ok parentBits)
    (hnet : (getNode t i).network = n) :
    WF (setNode t parentIdx
      (setChildSlot (getNode t parentIdx) parentBits (firstChild (getNode t i)))) := by
  have hiOK := hwf.2.2 i hi
  obtain ⟨hpi, hskpar31, hskparlt, hextpar⟩ := hiOK.2.2.2.2.2.2 parentIdx hparent
  have hparOK := hwf.2.2 parentIdx hpi
  have hskparle : (getNode t parentIdx).numBitsSkipped ≤ 32 := hparOK.2.2.2.1
  obtain ⟨hskp31, hpbv⟩ := targetBitFromIP_ok_elim hskparle hbits
  have hpb1 : parentBits ≤ 1 := by
    rw [hpbv]
    have := bitVal_lt_two n.number (31 - (getNode t parentIdx).numBitsSkipped)
    omega
  have hsame : ∀ j, j < t.nodes.length →
      (getNode (setNode t parentIdx (setChildSlot (getNode t parentIdx) parentBits
        (firstChild (getNode t i)))) j).network = (getNode t j).network ∧
      (getNode (setNode t parentIdx (setChildSlot (getNode t parentIdx) parentBits
        (firstChild (getNode t i)))) j).numBitsSkipped
        = (getNode t j).numBitsSkipped := by
    intro j hj
    by_cases hjp : parentIdx = j
    · rw [← hjp, getNode_setNode_same _ _ _ hpi, setChildSlot_network, setChildSlot_skip]
      exact ⟨rfl, rfl⟩
    · rw [getNode_setNode_ne _ _ _ _ hjp]
      exact ⟨rfl, rfl⟩
  have hlenof : t.nodes.length ≤ (setNode t parentIdx (setChildSlot (getNode t parentIdx)
      parentBits (firstChild (getNode t i)))).nodes.length := by
    rw [setNode_length]
  have hnewslot : childOK t (getNode t parentIdx) parentBits
      (firstChild (getNode t i)) := by
    intro c hc
    have hcm : ∃ b, b ≤ 1 ∧ getChild (getNode t i) b = some c := by
      rw [firstChild] at hc
      cases h0 : (getNode t i).child0 with
      | some c0 =>
        rw [h0] at hc
        injection hc with hc
        exact ⟨0, by omega, by rw [getChild, if_pos rfl, h0, hc]⟩
      | none =>
        rw [h0] at hc
        exact ⟨1, by omega, by rw [getChild, if_neg (by omega)]; exact hc⟩
    obtain ⟨b, hb1, hgc⟩ := hcm
    obtain ⟨hclen, hskip31i, hsklt, hext, hbitc⟩ := nodeOK_child_elim hiOK hb1 hgc
    refine ⟨hclen, hskp31, by omega, ?_, ?_⟩
    · rw [← maskAddr_maskAddr (le_of_lt hskparlt) (getNode t c).network.number,
        hext, hextpar]
    · rw [hpbv, ← hnet, ← hext, bitVal_maskAddr_high (by omega)]
  refine ⟨by rw [setNode_length]; exact hwf.1, ?_, ?_⟩
  · rw [(hsame 0 hwf.1).2]
    exact hwf.2.1
  · intro j hj
    rw [setNode_length] at hj
    by_cases hjp : parentIdx = j
    · rw [← hjp, getNode_setNode_same _ _ _ hpi]
      refine ⟨?_, ?_, ?_, ?_, ?_, ?_, ?_⟩
      · rw [setChildSlot_network]
        exact hparOK.1
      · rw [setChildSlot_network]
        exact hparOK.2.1
      · rw [setChildSlot_network, setChildSlot_skip]
        exact hparOK.2.2.1
      · rw [setChildSlot_skip]
        exact hparOK.2.2.2.1
      · by_cases hb0 : parentBits = 0
        · rw [setChildSlot_child0_of_eq hb0]
          exact childOK_fields (childOK_mono (hb0 ▸ hnewslot) hlenof hsame)
            (setChildSlot_network _ _ _) (setChildSlot_skip _ _ _)
        · rw [setChildSlot_child0_ne hb0]
          exact childOK_fields (childOK_mono hparOK.2.2.2.2.1 hlenof hsame)
            (setChildSlot_network _ _ _) (setChildSlot_skip _ _ _)
      · by_cases hb0 : parentBits = 0
        · rw [setChildSlot_child1_of_eq hb0]
          exact childOK_fields (childOK_mono hparOK.2.2.2.2.2.1 hlenof hsame)
            (setChildSlot_network _ _ _) (setChildSlot_skip _ _ _)
        · have hb1' : parentBits = 1 := by omega
          rw [setChildSlot_child1_ne hb0]
          exact childOK_fields (childOK_mono (hb1' ▸ hnewslot) hlenof hsame)
            (setChildSlot_network _ _ _) (setChildSlot_skip _ _ _)
      · exact parentOK_fields (parentOK_mono hparOK.2.2.2.2.2.2 hlenof hsame)
          (setChildSlot_network _ _ _) (setChildSlot_skip _ _ _)
          (setChildSlot_parent _ _ _)
    · rw [getNode_setNode_ne _ _ _ _ hjp]
      exact nodeOK_mono (hwf.2.2 j hj) hlenof hsame

theorem remove_wf : ∀ (fuel : Nat) (t : PrefixTrie) (i : Nat) (n : Network),
    WF t → i < t.nodes.length →
    WF (removeAux fuel t i n).1 ∧
    (33 - (getNode t i).numBitsSkipped ≤ fuel →
      (removeAux fuel t i n).2 ≠ .error Err.outOfFuel) := by
  intro fuel
  induction fuel with
  | zero =>
    intro t i n hwf hi
    refine ⟨hwf, ?_⟩
    intro hf
    have := WF_skip_le hwf hi
    omega
  | succ f ih =>
    intro t i n hwf hi
    by_cases hm : (getNode t i).hasEntry ∧ (getNode t i).network = n
    · rw [removeAux, if_pos hm]
      by_cases hcc : childrenCount (getNode t i) > 1
      · rw [if_pos hcc]
        refine ⟨WF_setFlag hwf hi false, ?_⟩
        intro _ hcon
        cases hcon
      · rw [if_neg hcc]
        split
        next hpn =>
          refine ⟨hwf, ?_⟩
          intro _ hcon
          injection hcon with h2
          cases h2
        next parentIdx hpar =>
          split
          next e he =>
            refine ⟨hwf, ?_⟩
            intro _ hcon
            injection hcon with h2
            rw [targetBitFromIP_error_elim he] at h2
            cases h2
          next parentBits hbits =>
            refine ⟨splice_wf hwf hi hpar hbits hm.2, ?_⟩
            intro _ hcon
            cases hcon
    · rw [removeAux, if_neg hm]
      split
      next e he =>
        refine ⟨hwf, ?_⟩
        intro _ hcon
        injection hcon with h2
        rw [targetBitFromIP_error_elim he] at h2
        cases h2
      next bit he =>
        split
        next hgc =>
          refine ⟨hwf, ?_⟩
          intro _ hcon
          cases hcon
        next c hgc =>
          have hskle : (getNode t i).numBitsSkipped ≤ 32 := WF_skip_le hwf hi
          obtain ⟨hsk31, hbv⟩ := targetBitFromIP_ok_elim hskle he
          have hb1 : bit ≤ 1 := by
            rw [hbv]
            have := bitVal_lt_two n.number (31 - (getNode t i).numBitsSkipped)
            omega
          obtain ⟨hc, _, hskc, _, _⟩ := nodeOK_child_elim (hwf.2.2 i hi) hb1 hgc
          have hcskle : (getNode t c).numBitsSkipped ≤ 32 := WF_skip_le hwf hc
          obtain ⟨w1, w2⟩ := ih t c n hwf hc
          exact ⟨w1, fun hf => w2 (by omega)⟩

end CidrTrie

namespace CidrTrie

theorem contains_term : ∀ (fuel : Nat) (t : PrefixTrie) (i number : Nat),
    WF t → i < t.nodes.length → 33 - (getNode t i).numBitsSkipped ≤ fuel →
    containsAux fuel t i number ≠ .error Err.outOfFuel := by
  intro fuel
  induction fuel with
  | zero =>
    intro t i number hwf hi hf
    have := WF_skip_le hwf hi
    omega
  | succ f ih =>
    intro t i number hwf hi hf
    rw [containsAux]
    split
    next h =>
      intro hcon
      cases hcon
    next h =>
      split
      next hent =>
        intro hcon
        cases hcon
      next hent =>
        split
        next e he =>
          intro hcon
          injection hcon with h2
          rw [targetBitFromIP_error_elim he] at h2
          cases h2
        next bit he =>
          split
          next hgc =>
            intro hcon
            cases hcon
          next c hgc =>
            have hskle := WF_skip_le hwf hi
            obtain ⟨hsk31, hbv⟩ := targetBitFromIP_ok_elim hskle he
            have hb1 : bit ≤ 1 := by
              rw [hbv]
              have := bitVal_lt_two number (31 - (getNode t i).numBitsSkipped)
              omega
            obtain ⟨hc, _, hskc, _, _⟩ := nodeOK_child_elim (hwf.2.2 i hi) hb1 hgc
            have := WF_skip_le hwf hc
            exact ih t c number hwf hc (by omega)

theorem containingInner_ne {f : Nat} {t : PrefixTrie} {i number : Nat}
    (results : List Network) (hwf : WF t) (hi : i < t.nodes.length)
    (hf : 33 - (getNode t i).numBitsSkipped ≤ f + 1)
    (hrec : ∀ c, c < t.nodes.length → 33 - (getNode t c).numBitsSkipped ≤ f →
      containingAux f t c number ≠ .error Err.outOfFuel) :
    (match targetBitFromIP (getNode t i) number with
      | Except.error e => Except.error e
      | Except.ok bit =>
        match getChild (getNode t i) bit with
        | none => Except.ok results
        | some child =>
          match containingAux f t child number with
          | Except.error e => Except.error e
          | Except.ok ranges =>
            if ranges.length > 0 then Except.ok (results ++ ranges)
            else Except.ok results)
      ≠ (Except.error Err.outOfFuel : Except Err (List Network)) := by
  split
  next e he =>
    intro hcon
    injection hcon with h2
    rw [targetBitFromIP_error_elim he] at h2
    cases h2
  next bit he =>
    split
    next hgc =>
      intro hcon
      cases hcon
    next c hgc =>
      have hskle := WF_skip_le hwf hi
      obtain ⟨hsk31, hbv⟩ := targetBitFromIP_ok_elim hskle he
      have hb1 : bit ≤ 1 := by
        rw [hbv]
        have := bitVal_lt_two number (31 - (getNode t i).numBitsSkipped)
        omega
      obtain ⟨hc, _, hskc, _, _⟩ := nodeOK_child_elim (hwf.2.2 i hi) hb1 hgc
      have hc32 := WF_skip_le hwf hc
      have hr2 := hrec c hc (by omega)
      split
      next e2 he2 =>
        intro hcon
        injection hcon with h2
        rw [h2] at he2
        exact hr2 he2
      next ranges hr3 =>
        split
        · intro hcon
          cases hcon
        · intro hcon
          cases hcon

theorem containing_term : ∀ (fuel : Nat) (t : PrefixTrie) (i number : Nat),
    WF t → i < t.nodes.length → 33 - (getNode t i).numBitsSkipped ≤ fuel →
    containingAux fuel t i number ≠ .error Err.outOfFuel := by
  intro fuel
  induction fuel with
  | zero =>
    intro t i number hwf hi hf
    have := WF_skip_le hwf hi
    omega
  | succ f ih =>
    intro t i number hwf hi hf
    rw [containingAux]
    split
    next h =>
      intro hcon
      cases hcon
    next h =>
      exact containingInner_ne
        (if (getNode t i).hasEntry then [(getNode t i).network] else []) hwf hi hf
        (fun c hc hfc => ih t c number hwf hc hfc)

theorem maskAddr_zero {a : Nat} (h : a < 2 ^ 32) : maskAddr a 0 = 0 := by
  show a / 2 ^ (32 - 0) * 2 ^ (32 - 0) = 0
  rw [Nat.sub_zero, Nat.div_eq_of_lt h, Nat.zero_mul]

theorem root_net_zero {t : PrefixTrie} (hwf : WF t) : (getNode t 0).network.number = 0 := by
  have h0 := hwf.2.2 0 hwf.1
  have hz : (getNode t 0).network.prefixLen = 0 := by
    rw [h0.2.2.1, hwf.2.1]
  have hm := h0.2.1
  rw [hz] at hm
  rw [← hm, maskAddr_zero h0.1]

theorem FramePre_root {t : PrefixTrie} (hwf : WF t) {n : Network}
    (hnum : n.number < 2 ^ 32) : FramePre t 0 n := by
  right
  constructor
  · rw [hwf.2.1, root_net_zero hwf, maskAddr_zero hnum]
  · rw [hwf.2.1]
    omega

theorem ValidNet_NewNetwork {addr ones : Nat} (ha : addr < 2 ^ 32) (ho : ones ≤ 32) :
    ValidNet (NewNetwork addr ones) :=
  ⟨ho, maskAddr_lt32 ha ones, maskAddr_idem addr ones⟩

theorem insert_post_root {t : PrefixTrie} {n : IPNetV4} (hwf : WF t)
    (ha : n.addr < 2 ^ 32) (ho : n.ones ≤ 32) :
    InsertPost t 0 (NewNetwork n.addr n.ones) (t.Insert n) := by
  have hval := ValidNet_NewNetwork ha ho
  have hfp := FramePre_root hwf hval.2.1
  exact insert_post_main (FUEL t) t 0 _ hwf hwf.1 hval hfp
    (by rw [FUEL, hwf.2.1]; omega)

theorem Reachable_WF : ∀ {t : PrefixTrie}, Reachable t → WF t := by
  intro t hr
  induction hr with
  | base => decide
  | insert t n hr ha ho ih => exact (insert_post_root ih ha ho).1
  | remove t n hr ha ho ih =>
    exact (remove_wf (FUEL t) t 0 (NewNetwork n.addr n.ones) ih ih.1).1

end CidrTrie

namespace CidrTrie

/-- C5: `Insert` is idempotent — for every reachable trie state and every
IPv4 CIDR input, the state after inserting twice equals the state after
inserting once (so `Contains`, `ContainingNetworks` and `Remove` answer
identically on every input), and when the first insertion succeeds the
re-insertion returns the state completely unchanged with no error. -/
theorem claim_C5 (t : PrefixTrie) (n : IPNetV4) (hr : Reachable t)
    (ha : n.addr < 2 ^ 32) (ho : n.ones ≤ 32) :
    ((t.Insert n).1.Insert n).1 = (t.Insert n).1 ∧
    ((t.Insert n).2 = none → (t.Insert n).1.Insert n = ((t.Insert n).1, none)) ∧
    (∀ ip, ((t.Insert n).1.Insert n).1.Contains ip = (t.Insert n).1.Contains ip) ∧
    (∀ ip, ((t.Insert n).1.Insert n).1.ContainingNetworks ip
      = (t.Insert n).1.ContainingNetworks ip) ∧
    (∀ m : IPNetV4, ((t.Insert n).1.Insert n).1.Remove m = (t.Insert n).1.Remove m) := by
  have hwf := Reachable_WF hr
  have hpost := insert_post_root hwf ha ho
  have hsecond : (t.Insert n).2 = none →
      (t.Insert n).1.Insert n = ((t.Insert n).1, none) := by
    intro h2
    have hid := hpost.2.2.2.2.2 h2 (FUEL (t.Insert n).1) (by rw [FUEL, hwf.2.1]; omega)
    exact hid
  have hstate : ((t.Insert n).1.Insert n).1 = (t.Insert n).1 := by
    cases h2 : (t.Insert n).2 with
    | some e =>
      have h1 : (t.Insert n).1 = t := (hpost.2.2.2.1 e h2).1
      rw [h1]
      exact h1
    | none =>
      rw [hsecond h2]
  exact ⟨hstate, hsecond, fun ip => by rw [hstate], fun ip => by rw [hstate],
    fun m => by rw [hstate]⟩

theorem claim_C5_witness :
    ((NewPrefixTree.Insert ⟨0, 24⟩).1.Insert ⟨0, 24⟩).1 = (NewPrefixTree.Insert ⟨0, 24⟩).1 ∧
    ((NewPrefixTree.Insert ⟨0, 24⟩).2 = none →
      (NewPrefixTree.Insert ⟨0, 24⟩).1.Insert ⟨0, 24⟩
        = ((NewPrefixTree.Insert ⟨0, 24⟩).1, none)) ∧
    (∀ ip, ((NewPrefixTree.Insert ⟨0, 24⟩).1.Insert ⟨0, 24⟩).1.Contains ip
      = (NewPrefixTree.Insert ⟨0, 24⟩).1.Contains ip) ∧
    (∀ ip, ((NewPrefixTree.Insert ⟨0, 24⟩).1.Insert ⟨0, 24⟩).1.ContainingNetworks ip
      = (NewPrefixTree.Insert ⟨0, 24⟩).1.ContainingNetworks ip) ∧
    (∀ m : IPNetV4, ((NewPrefixTree.Insert ⟨0, 24⟩).1.Insert ⟨0, 24⟩).1.Remove m
      = (NewPrefixTree.Insert ⟨0, 24⟩).1.Remove m) :=
  claim_C5 NewPrefixTree ⟨0, 24⟩ Reachable.base (by decide) (by decide)

/-- C6: `Insert` is atomic on failure — for every reachable trie state and
every IPv4 CIDR input, if the insertion returns an error the resulting
state is exactly the state before the call: no node attached, no entry
flag mutated. -/
theorem claim_C6 (t : PrefixTrie) (n : IPNetV4) (hr : Reachable t)
    (ha : n.addr < 2 ^ 32) (ho : n.ones ≤ 32) (e : Err)
    (he : (t.Insert n).2 = some e) : (t.Insert n).1 = t :=
  ((insert_post_root (Reachable_WF hr) ha ho).2.2.2.1 e he).1

theorem claim_C6_witness :
    ((NewPrefixTree.Insert ⟨16909061, 32⟩).1.Insert ⟨16909061, 31⟩).2
      = some Err.invalidBitPosition ∧
    ((NewPrefixTree.Insert ⟨16909061, 32⟩).1.Insert ⟨16909061, 31⟩).1
      = (NewPrefixTree.Insert ⟨16909061, 32⟩).1 :=
  ⟨by decide,
    claim_C6 (NewPrefixTree.Insert ⟨16909061, 32⟩).1 ⟨16909061, 31⟩
      (Reachable.insert NewPrefixTree ⟨16909061, 32⟩ Reachable.base (by decide) (by decide))
      (by decide) (by decide) Err.invalidBitPosition (by decide)⟩

/-- C8: on every reachable trie state, no node's consumed-bits depth
exceeds the address width 32, and every descent of the four operations
terminates within depth 32: with fuel for only 33 frames none of
`insert`, `remove`, `contains`, `containingNetworks` runs out, and the
public operations never report fuel exhaustion. -/
theorem claim_C8 (t : PrefixTrie) (hr : Reachable t) :
    (∀ j, j < t.nodes.length → (getNode t j).numBitsSkipped ≤ 32) ∧
    (∀ a ones, a < 2 ^ 32 → ones ≤ 32 →
      (insertAux 33 t 0 (NewNetwork a ones)).2 ≠ some Err.outOfFuel) ∧
    (∀ nw : Network, (removeAux 33 t 0 nw).2 ≠ .error Err.outOfFuel) ∧
    (∀ number : Nat, containsAux 33 t 0 number ≠ .error Err.outOfFuel ∧
      containingAux 33 t 0 number ≠ .error Err.outOfFuel) ∧
    (∀ n : IPNetV4, n.addr < 2 ^ 32 → n.ones ≤ 32 →
      (t.Insert n).2 ≠ some Err.outOfFuel ∧
      (t.Remove n).2 ≠ .error Err.outOfFuel) ∧
    (∀ ip : List Nat, t.Contains ip ≠ .error Err.outOfFuel ∧
      t.ContainingNetworks ip ≠ .error Err.outOfFuel) := by
  have hwf := Reachable_WF hr
  have hfuel33 : 33 - (getNode t 0).numBitsSkipped ≤ 33 := by omega
  refine ⟨fun j hj => WF_skip_le hwf hj, ?_, ?_, ?_, ?_, ?_⟩
  · intro a ones ha ho hcon
    have hval := ValidNet_NewNetwork ha ho
    have hpost := insert_post_main 33 t 0 (NewNetwork a ones) hwf hwf.1 hval
      (FramePre_root hwf hval.2.1) hfuel33
    exact (hpost.2.2.2.1 Err.outOfFuel hcon).2 rfl
  · intro nw
    exact (remove_wf 33 t 0 nw hwf hwf.1).2 hfuel33
  · intro number
    exact ⟨contains_term 33 t 0 number hwf hwf.1 hfuel33,
      containing_term 33 t 0 number hwf hwf.1 hfuel33⟩
  · intro n ha ho
    constructor
    · intro hcon
      exact ((insert_post_root hwf ha ho).2.2.2.1 Err.outOfFuel hcon).2 rfl
    · exact (remove_wf (FUEL t) t 0 (NewNetwork n.addr n.ones) hwf hwf.1).2
        (by rw [FUEL]; omega)
  · intro ip
    constructor
    · rw [PrefixTrie.Contains]
      split
      · intro hcon
        cases hcon
      · exact contains_term (FUEL t) t 0 _ hwf hwf.1 (by rw [FUEL]; omega)
    · rw [PrefixTrie.ContainingNetworks]
      split
      · intro hcon
        cases hcon
      · exact containing_term (FUEL t) t 0 _ hwf hwf.1 (by rw [FUEL]; omega)

theorem claim_C8_witness :
    (∀ j, j < NewPrefixTree.nodes.length →
      (getNode NewPrefixTree j).numBitsSkipped ≤ 32) ∧
    (∀ a ones, a < 2 ^ 32 → ones ≤ 32 →
      (insertAux 33 NewPrefixTree 0 (NewNetwork a ones)).2 ≠ some Err.outOfFuel) ∧
    (∀ nw : Network, (removeAux 33 NewPrefixTree 0 nw).2 ≠ .error Err.outOfFuel) ∧
    (∀ number : Nat, containsAux 33 NewPrefixTree 0 number ≠ .error Err.outOfFuel ∧
      containingAux 33 NewPrefixTree 0 number ≠ .error Err.outOfFuel) ∧
    (∀ n : IPNetV4, n.addr < 2 ^ 32 → n.ones ≤ 32 →
      (NewPrefixTree.Insert n).2 ≠ some Err.outOfFuel ∧
      (NewPrefixTree.Remove n).2 ≠ .error Err.outOfFuel) ∧
    (∀ ip : List Nat, NewPrefixTree.Contains ip ≠ .error Err.outOfFuel ∧
      NewPrefixTree.ContainingNetworks ip ≠ .error Err.outOfFuel) :=
  claim_C8 NewPrefixTree Reachable.base

end CidrTrie
